import Mathlib

/-!
Verification development for a chat-based personal-finance ledger
(`bot.py` + `google_sheet_store.py`).

The Python source is shallowly embedded below.  Conventions of the embedding:

* Strings are modelled as `List Char`; `ofStr` converts a Lean string literal.
  Character classes (`\w`, `\s`, `\d`) and case mapping are modelled over the
  ASCII range plus the exact non-ASCII characters appearing in the program's
  literals; every input appearing in a theorem below stays in that range.
* `datetime.date` is modelled by `PyDate`; `datetime.today().date()` — an
  ambient-clock read — is passed in explicitly as a `today` parameter.
* Python `float` (IEEE-754 binary64) is modelled by `roundFloat`, exact
  round-to-nearest-even to a 53-bit significand over `ℚ`; this is exact for
  every double in the normal range (subnormal underflow and overflow to
  infinity are not modelled; no theorem below depends on those regimes).
* Exceptions (`ValueError` from `strptime`, store errors) are modelled with
  `Except` / explicit success flags.
* The Google-sheet store is modelled as an in-memory list of rows plus an
  oracle `List Bool` saying whether each successive `append_row` call
  succeeds (`True` when the oracle is exhausted).
-/

namespace FinanceBot

/-- Convert a Lean string literal to the `List Char` representation used
throughout the embedding. -/
def ofStr (s : String) : List Char := s.data

/-- Model of the regex class `\w` (word character): ASCII letters, digits and
underscore.  (Python's `re` is Unicode-aware; all characters relevant to the
theorems below are ASCII or non-alphanumeric symbols, where this model
agrees with Python.) -/
def isWordChar (c : Char) : Bool :=
  decide (('a' ≤ c ∧ c ≤ 'z') ∨ ('A' ≤ c ∧ c ≤ 'Z') ∨ ('0' ≤ c ∧ c ≤ '9') ∨ c = '_')

/-- Model of the regex class `\s` / `str.strip` whitespace: ASCII whitespace. -/
def isSpaceChar (c : Char) : Bool :=
  decide (c = ' ' ∨ c = '\t' ∨ c = '\n' ∨ c = '\r' ∨ c = '\x0b' ∨ c = '\x0c')

/-- ASCII decimal digit (model of regex `\d`). -/
def isDigitChar (c : Char) : Bool := decide ('0' ≤ c ∧ c ≤ '9')

/-- Model of `str.upper` (ASCII case mapping; all letters in the inputs used
by the theorems are ASCII). -/
def pyUpper (c : Char) : Char :=
  if 'a' ≤ c ∧ c ≤ 'z' then Char.ofNat (c.toNat - 32) else c

/-- Model of `str.strip()`: drop leading and trailing whitespace. -/
def pyStrip (l : List Char) : List Char :=
  ((l.dropWhile isSpaceChar).reverse.dropWhile isSpaceChar).reverse

/-- Line-break characters recognised by `str.splitlines` (the ASCII ones;
`\r\n` is additionally treated as a single break). -/
def isLineBreak (c : Char) : Bool :=
  decide (c = '\n' ∨ c = '\r' ∨ c = '\x0b' ∨ c = '\x0c' ∨
    c = '\x1c' ∨ c = '\x1d' ∨ c = '\x1e')

/-- Worker for `pySplitlines`: `cur` holds the current line reversed. -/
def splitlinesAux : List Char → List Char → List (List Char)
  | cur, [] => [cur.reverse]
  | cur, '\r' :: '\n' :: t =>
    match t with
    | [] => [cur.reverse]
    | _ => cur.reverse :: splitlinesAux [] t
  | cur, c :: t =>
    if isLineBreak c then
      match t with
      | [] => [cur.reverse]
      | _ => cur.reverse :: splitlinesAux [] t
    else splitlinesAux (c :: cur) t

/-- Model of `str.splitlines` (no trailing empty line; `"" ↦ []`). -/
def pySplitlines (l : List Char) : List (List Char) :=
  match l with
  | [] => []
  | _ => splitlinesAux [] l

/-- Numeric value of a list of ASCII digits (most significant first). -/
def natOfDigits (l : List Char) : ℕ :=
  l.foldl (fun n c => 10 * n + (c.toNat - '0'.toNat)) 0

/-- Decimal digit list of `n` (no leading zeros; `0 ↦ "0"`). -/
def digitsOf (n : ℕ) : List Char := Nat.toDigits 10 n

/-- Zero-pad a digit string on the left to width `w`. -/
def padZero (w : ℕ) (l : List Char) : List Char :=
  List.replicate (w - l.length) '0' ++ l

/-- Calendar date, as produced by `datetime.date`. -/
structure PyDate where
  y : ℕ
  m : ℕ
  d : ℕ
  deriving DecidableEq, Repr

/-- Gregorian leap-year predicate (as implemented by `datetime`). -/
def isLeap (y : ℕ) : Bool := decide ((y % 4 = 0 ∧ y % 100 ≠ 0) ∨ y % 400 = 0)

/-- Days in a month (as enforced by `datetime.date`). -/
def daysInMonth (y m : ℕ) : ℕ :=
  if m = 2 then (if isLeap y then 29 else 28)
  else if m = 4 ∨ m = 6 ∨ m = 9 ∨ m = 11 then 30
  else 31

/-- Validity check performed by the `datetime.date` constructor. -/
def validDate (y m d : ℕ) : Bool :=
  decide (1 ≤ y ∧ y ≤ 9999 ∧ 1 ≤ m ∧ m ≤ 12 ∧ 1 ≤ d ∧ d ≤ daysInMonth y m)

/-- Model of `datetime.strptime(s, "%Y%m%d").date()` applied to an 8-digit
string: 4-digit year, 2-digit month, 2-digit day; `none` when the digits do
not form a valid calendar date (the Python call raises `ValueError`). -/
def strptime8 (l : List Char) : Option PyDate :=
  match l with
  | [y1, y2, y3, y4, m1, m2, d1, d2] =>
    let y := natOfDigits [y1, y2, y3, y4]
    let m := natOfDigits [m1, m2]
    let d := natOfDigits [d1, d2]
    if validDate y m d then some ⟨y, m, d⟩ else none
  | _ => none

/-- Model of `str(date)`: ISO rendering with the year padded to 4 digits. -/
def strDate (d : PyDate) : List Char :=
  padZero 4 (digitsOf d.y) ++ '-' :: (padZero 2 (digitsOf d.m) ++
    '-' :: padZero 2 (digitsOf d.d))

/-- Model of `date.strftime("%Y-%m-%d")` (glibc): the year is NOT zero-padded
to 4 digits, month and day are.  Agrees with `strDate` for years ≥ 1000. -/
def strftimeISO (d : PyDate) : List Char :=
  digitsOf d.y ++ '-' :: (padZero 2 (digitsOf d.m) ++ '-' :: padZero 2 (digitsOf d.d))

/-- Model of `datetime.strptime(s, "%Y-%m-%d")`: exactly 4 year digits,
1–2 month digits, 1–2 day digits, dashes in between, whole string consumed,
and the triple must form a valid date; `none` models the raised
`ValueError`. -/
def parseISO (l : List Char) : Option PyDate :=
  match l.splitOn '-' with
  | [ys, ms, ds] =>
    if ys.length = 4 ∧ (ms.length = 1 ∨ ms.length = 2) ∧
       (ds.length = 1 ∨ ds.length = 2) ∧
       (ys.all isDigitChar ∧ ms.all isDigitChar ∧ ds.all isDigitChar) = true then
      let y := natOfDigits ys
      let m := natOfDigits ms
      let d := natOfDigits ds
      if validDate y m d then some ⟨y, m, d⟩ else none
    else none
  | _ => none

/-!
## The amount regex

`_AMOUNT_RE = re.compile(r"(?i)\b([+-]?)\s*(\d+(?:\.\d+)?)\s*([KM]?)\b")`

The matcher below reproduces Python's leftmost-match backtracking search for
this one pattern.  Greedy sub-expressions are tried longest-first; two greedy
pieces need no backtracking and are taken maximal outright:

* the `\s*` before `\d+`: stopping earlier leaves a space where a digit is
  required, so only the maximal munch can ever succeed;
* the digit runs of `\d+` (integer and fractional): stopping earlier leaves a
  digit as the next character, and no following piece (`\.`, `\s`, `[KM]`,
  `\b`) can accept a digit there, so only the maximal run can succeed.

The `\s*` before `[KM]?` genuinely backtracks (because of the final `\b`) and
is enumerated longest-first, as is the optional sign, fractional part and
unit. -/
/-- The zero-width `\b` assertion between the previous character (`none` at
the start of the string) and the remaining input. -/
def atBoundary (prev : Option Char) (next : List Char) : Bool :=
  match prev, next with
  | none, [] => false
  | none, c :: _ => isWordChar c
  | some p, [] => isWordChar p
  | some p, c :: _ => isWordChar p != isWordChar c

/-- A successful match of `_AMOUNT_RE` at one position:  the matched span,
the remaining input, and the three groups. -/
structure CoreM where
  matched : List Char
  rest : List Char
  sign : Option Char
  num : List Char
  unit : Option Char
  deriving DecidableEq, Repr

/-- Characters contributed by an optional one-character group. -/
def optChar : Option Char → List Char
  | none => []
  | some c => [c]

/-- Final step: optional `[KM]?` already chosen; check the trailing `\b`. -/
def finishM (sign : Option Char) (sp1 ds frac sp2 : List Char)
    (unit : Option Char) (rest : List Char) : Option CoreM :=
  let matched := optChar sign ++ sp1 ++ ds ++ frac ++ sp2 ++ optChar unit
  if atBoundary matched.getLast? rest then
    some ⟨matched, rest, sign, ds ++ frac, unit⟩
  else none

/-- Try the optional unit letter, greedily (`[KM]?` under `(?i)`). -/
def matchUnit (sign : Option Char) (sp1 ds frac sp2 : List Char)
    (l : List Char) : Option CoreM :=
  match l with
  | c :: t =>
    if c = 'K' ∨ c = 'M' ∨ c = 'k' ∨ c = 'm' then
      (finishM sign sp1 ds frac sp2 (some c) t).orElse
        (fun _ => finishM sign sp1 ds frac sp2 none l)
    else finishM sign sp1 ds frac sp2 none l
  | [] => finishM sign sp1 ds frac sp2 none []

/-- Backtrack the second `\s*` from longest to empty; `sp2rev` is the
still-consumed space run, reversed (`[].reverse` written `[]`), and `l` the
input after it. -/
def trySp2 (sign : Option Char) (sp1 ds frac : List Char) :
    List Char → List Char → Option CoreM
  | [], l =>
    match matchUnit sign sp1 ds frac [] l with
    | some r => some r
    | none => none
  | c :: t, l =>
    match matchUnit sign sp1 ds frac (c :: t).reverse l with
    | some r => some r
    | none => trySp2 sign sp1 ds frac t (c :: l)

/-- Try the optional fractional part `(?:\.\d+)?`, greedily. -/
def matchFrac (sign : Option Char) (sp1 ds : List Char) (l : List Char) :
    Option CoreM :=
  let withFrac : Option CoreM :=
    match l with
    | c :: t =>
      if c = '.' then
        let fs := t.takeWhile isDigitChar
        if fs = [] then none
        else
          let l4 := t.dropWhile isDigitChar
          trySp2 sign sp1 ds ('.' :: fs) (l4.takeWhile isSpaceChar).reverse
            (l4.dropWhile isSpaceChar)
      else none
    | [] => none
  withFrac.orElse fun _ =>
    trySp2 sign sp1 ds [] (l.takeWhile isSpaceChar).reverse
      (l.dropWhile isSpaceChar)

/-- After the optional sign: `\s*` (maximal) and `\d+` (maximal). -/
def matchAfterSign (sign : Option Char) (l : List Char) : Option CoreM :=
  let sp1 := l.takeWhile isSpaceChar
  let l1 := l.dropWhile isSpaceChar
  let ds := l1.takeWhile isDigitChar
  if ds = [] then none
  else matchFrac sign sp1 ds (l1.dropWhile isDigitChar)

/-- Try the optional sign `([+-]?)`, greedily. -/
def matchSign (l : List Char) : Option CoreM :=
  match l with
  | c :: t =>
    if c = '+' ∨ c = '-' then
      (matchAfterSign (some c) t).orElse (fun _ => matchAfterSign none l)
    else matchAfterSign none l
  | [] => matchAfterSign none []

/-- Attempt a match of `_AMOUNT_RE` at the current position. -/
def matchCore (prev : Option Char) (l : List Char) : Option CoreM :=
  if atBoundary prev l then matchSign l else none

/-- A match found by `re.search`: the prefix before it plus the core match. -/
structure AmountMatch where
  pre : List Char
  core : CoreM
  deriving DecidableEq, Repr

/-- Leftmost-match scan of `_AMOUNT_RE.search`. -/
def searchAux : Option Char → List Char → List Char → Option AmountMatch
  | prev, [], pre =>
    match matchCore prev [] with
    | some r => some ⟨pre, r⟩
    | none => none
  | prev, c :: t, pre =>
    match matchCore prev (c :: t) with
    | some r => some ⟨pre, r⟩
    | none => searchAux (some c) t (pre ++ [c])

/-- Model of `_AMOUNT_RE.search(s)`. -/
def amountSearch (l : List Char) : Option AmountMatch := searchAux none l []

/-!
## Binary64 model and the amount parser
-/
/-- Fueled `⌊log₂⌋` (structurally recursive, so it evaluates in the kernel). -/
def log2fuel : ℕ → ℕ → ℕ
  | 0, _ => 0
  | f + 1, n => if n < 2 then 0 else log2fuel f (n / 2) + 1

/-- `⌊log₂ n⌋` for `n ≥ 1` (and `0` for `n = 0`). -/
def natLog2 (n : ℕ) : ℕ := log2fuel n n

/-- A non-negative rational, as an unreduced numerator/denominator pair
(denominator positive by construction everywhere below). -/
abbrev QF := ℕ × ℕ

/-- Whether `n / d < 2 ^ e`. -/
def ltPow2 (n d : ℕ) (e : ℤ) : Bool :=
  if 0 ≤ e then decide (n < d * 2 ^ e.toNat) else decide (n * 2 ^ (-e).toNat < d)

/-- `⌊log₂ (n / d)⌋` for positive `n`, `d`. -/
def qlog2 (n d : ℕ) : ℤ :=
  let e : ℤ := (natLog2 n : ℤ) - (natLog2 d : ℤ)
  if ltPow2 n d e then e - 1 else e

/-- Round-to-nearest, ties-to-even, onto a 53-bit significand: the exact
value of the IEEE-754 binary64 double nearest to `n / d`, for values in the
normal range (subnormals and overflow are not modelled; no theorem below
uses them).  This models both Python's `float(decimal_string)` (correctly
rounded) and the rounding of each arithmetic result. -/
def roundFloat (q : QF) : QF :=
  let n := q.1
  let d := q.2
  if n = 0 then (0, 1) else
  let e := qlog2 n d
  let k : ℤ := 52 - e
  let ns := if 0 ≤ k then n * 2 ^ k.toNat else n
  let ds := if 0 ≤ k then d else d * 2 ^ (-k).toNat
  let q0 := ns / ds
  let r := ns % ds
  let m := if 2 * r < ds then q0 else if ds < 2 * r then q0 + 1
    else if q0 % 2 = 0 then q0 else q0 + 1
  if 0 ≤ e - 52 then (m * 2 ^ (e - 52).toNat, 1) else (m, 2 ^ (52 - e).toNat)

/-- Exact decimal value of group 2 (digits with at most one point), as a
numerator/denominator pair. -/
def decimalOf (num : List Char) : QF :=
  let ip := num.takeWhile isDigitChar
  match num.dropWhile isDigitChar with
  | '.' :: fs => (natOfDigits ip * 10 ^ fs.length + natOfDigits fs, 10 ^ fs.length)
  | _ => (natOfDigits ip, 1)

/-- Model of `_parse_amount_with_sign(text)` (bot.py:109-130): uppercase,
drop commas, search `_AMOUNT_RE`; on a match, take `float(group 2)`, scale by
1 000 for unit `K` or 1 000 000 for unit `M` (each step in binary64), and
truncate with `int(...)`.  Returns `(abs_amount_int, sign_char_or_none)`; the
value is non-negative throughout, so the source's `abs` is the identity. -/
def parse_amount_with_sign (text : List Char) : ℕ × Option Char :=
  let s := (text.map pyUpper).filter (fun c => c ≠ ',')
  match amountSearch s with
  | none => (0, none)
  | some mt =>
    let num0 := roundFloat (decimalOf mt.core.num)
    let num := match mt.core.unit with
      | some 'K' => roundFloat (num0.1 * 1000, num0.2)
      | some 'M' => roundFloat (num0.1 * 1000000, num0.2)
      | _ => num0
    (num.1 / num.2, mt.core.sign)

/-- Model of `_strip_amount(text)` (bot.py:132-134):
`_AMOUNT_RE.sub("", text, count=1).strip()` — remove the first matched span
from the original (non-uppercased, commas kept) text, then strip. -/
def strip_amount (text : List Char) : List Char :=
  match amountSearch text with
  | none => pyStrip text
  | some mt => pyStrip (mt.pre ++ mt.core.rest)

/-!
## `parse_lines` (bot.py:139-187)
-/

instance {ε α : Type} [DecidableEq ε] [DecidableEq α] : DecidableEq (Except ε α) :=
  fun x y =>
    match x, y with
    | .error a, .error b =>
      if h : a = b then isTrue (by rw [h])
      else isFalse (by intro he; cases he; exact h rfl)
    | .ok a, .ok b =>
      if h : a = b then isTrue (by rw [h])
      else isFalse (by intro he; cases he; exact h rfl)
    | .error _, .ok _ => isFalse (by intro h; cases h)
    | .ok _, .error _ => isFalse (by intro h; cases h)

/-- A parsed transaction entry `(date, signed_amount, category)`. -/
structure Entry where
  date : PyDate
  amount : ℤ
  cat : List Char
  deriving DecidableEq, Repr

/-- Model of a `_DATE_PREFIX_RE = r"^(\d{8})\s+(.*)$"` match: exactly 8
leading digits, at least one whitespace character, and group 2 is the
remainder after the maximal whitespace run (`\s+` is greedy). -/
def datePrefixMatch (l : List Char) : Option (List Char × List Char) :=
  let d8 := l.take 8
  let rest := l.drop 8
  if d8.length = 8 ∧ d8.all isDigitChar = true then
    match rest with
    | c :: _ => if isSpaceChar c then some (d8, rest.dropWhile isSpaceChar) else none
    | [] => none
  else none

/-- The sign decision of `parse_lines` (bot.py:172-184): an explicit `+`/`-`
from the matched amount token wins; otherwise the fallback mode decides,
with `None`/anything else defaulting to CHI (negative). -/
def resolveAmount (sign : Option Char) (mode : Option (List Char)) (absAmt : ℕ) : ℤ :=
  if sign = some '+' then absAmt
  else if sign = some '-' then -(absAmt : ℤ)
  else if mode = some (ofStr "thu") then absAmt
  else if mode = some (ofStr "chi") then -(absAmt : ℤ)
  else -(absAmt : ℤ)

/-- One iteration of the `parse_lines` loop body (bot.py:155-186) on an
already-stripped, non-empty line.  `Except.error` models the uncaught
`ValueError` raised by `strptime` on an invalid 8-digit date prefix;
`.ok none` models the two `continue`-drops (zero magnitude, empty
category). -/
def lineEntry (today : PyDate) (mode : Option (List Char)) (line : List Char) :
    Except Unit (Option Entry) :=
  let dc : Except Unit (PyDate × List Char) :=
    match datePrefixMatch line with
    | some (d8, rest) =>
      match strptime8 d8 with
      | none => .error ()
      | some d => .ok (d, pyStrip rest)
    | none => .ok (today, line)
  match dc with
  | .error e => .error e
  | .ok (d, content) =>
    let pa := parse_amount_with_sign content
    if pa.1 = 0 then .ok none
    else
      let category := strip_amount content
      if category = [] then .ok none
      else .ok (some ⟨d, resolveAmount pa.2 mode pa.1, category⟩)

/-- The `parse_lines` loop over the list of lines; an exception at any line
aborts the whole call (the partial `results` list is lost). -/
def parseLinesCore (today : PyDate) (mode : Option (List Char)) :
    List (List Char) → Except Unit (List Entry)
  | [] => .ok []
  | l :: ls =>
    match lineEntry today mode l with
    | .error e => .error e
    | .ok none => parseLinesCore today mode ls
    | .ok (some ent) =>
      match parseLinesCore today mode ls with
      | .error e => .error e
      | .ok rest => .ok (ent :: rest)

/-- Model of `parse_lines(text, fallback_mode)` (bot.py:141-187).
`today` stands for the ambient `datetime.today().date()`. -/
def parse_lines (today : PyDate) (fallback_mode : Option (List Char))
    (text : List Char) : Except Unit (List Entry) :=
  parseLinesCore today fallback_mode
    (((pySplitlines (pyStrip text)).map pyStrip).filter (fun l => l ≠ []))

/-!
## The store (google_sheet_store.py) and the write loop (bot.py:411-440)
-/
/-- A persisted row, as written by `append_expense` / returned by
`get_all_rows`. -/
structure Row where
  date : List Char
  user : List Char
  amount : ℤ
  category : List Char
  deriving DecidableEq, Repr

/-- The row built by `append_expense(expense_date, user, amount, category)`
(google_sheet_store.py:35-50): `strftime("%Y-%m-%d")` date, `user or
"unknown"`, integer amount, category. -/
def append_expense (d : PyDate) (user : List Char) (amount : ℤ)
    (category : List Char) : Row :=
  ⟨strftimeISO d, if user = [] then ofStr "unknown" else user, amount, category⟩

/-- The per-entry `try: append_expense(...) ; ok += 1 / except: errors += 1`
loop of `handle_text` (bot.py:415-426).  The oracle says whether each
successive append call succeeds (`true` when exhausted); on failure the loop
logs and continues with the next entry.  Returns (store, ok, errors). -/
def writeLoop (user : List Char) : List Bool → List Row → List Entry →
    List Row × ℕ × ℕ
  | _, store, [] => (store, 0, 0)
  | oracle, store, e :: es =>
    if oracle.headD true then
      let r := writeLoop user oracle.tail
        (store ++ [append_expense e.date user e.amount e.cat]) es
      (r.1, r.2.1 + 1, r.2.2)
    else
      let r := writeLoop user oracle.tail store es
      (r.1, r.2.1, r.2.2 + 1)

/-!
## Aggregation (bot.py:202-349)
-/
/-- The day-report fold of `summary_day` (bot.py:212-220): rows whose date
string equals `str(target)`; positive amounts into `thu`, the rest as
`abs` into `chi`.  Note: NO user filter.  Returns `(thu, chi)`. -/
def summaryDayTotals (rows : List Row) (target : PyDate) : ℤ × ℤ :=
  rows.foldl (fun (tc : ℤ × ℤ) r =>
    if r.date = strDate target then
      if 0 < r.amount then (tc.1 + r.amount, tc.2) else (tc.1, tc.2 + |r.amount|)
    else tc) (0, 0)

/-- The month-report fold of `summary_month` (bot.py:248-260): rows whose
date parses under `%Y-%m-%d` (others skipped) with matching year and month.
Note: NO user filter.  Returns `(thu, chi)`. -/
def summaryMonthTotals (rows : List Row) (y m : ℕ) : ℤ × ℤ :=
  rows.foldl (fun (tc : ℤ × ℤ) r =>
    match parseISO r.date with
    | none => tc
    | some d =>
      if d.y = y ∧ d.m = m then
        if (0 : ℤ) < r.amount then (tc.1 + r.amount, tc.2)
        else (tc.1, tc.2 + |r.amount|)
      else tc) (0, 0)

/-- The scope filter of the `summary_year` row loop (bot.py:298-306): user
must equal the target, date must parse, year must match; gives the month. -/
def scopeMonth (target : List Char) (year : ℤ) (r : Row) : Option ℕ :=
  if r.user ≠ target then none
  else match parseISO r.date with
    | none => none
    | some d => if (d.y : ℤ) = year then some d.m else none

/-- `monthly[d.month]["thu"] += amt` / `["chi"] += abs(amt)` on a `defaultdict`:
update in place when the key exists, else append `(k, updated default)` —
preserving dict insertion order. -/
def dUpsert (k : ℕ) (amt : ℤ) : List (ℕ × ℤ × ℤ) → List (ℕ × ℤ × ℤ)
  | [] => [(k, if 0 < amt then (amt, 0) else (0, |amt|))]
  | (k', v) :: t =>
    if k' = k then
      (k', if 0 < amt then (v.1 + amt, v.2) else (v.1, v.2 + |amt|)) :: t
    else (k', v) :: dUpsert k amt t

/-- The `monthly` defaultdict after the row scan of `summary_year`
(bot.py:296-312), as an insertion-ordered association list
`month ↦ (thu, chi)`. -/
def buildMonthly (rows : List Row) (target : List Char) (year : ℤ) :
    List (ℕ × ℤ × ℤ) :=
  rows.foldl (fun acc r =>
    match scopeMonth target year r with
    | none => acc
    | some m => dUpsert m r.amount acc) []

/-- Dictionary lookup with the defaultdict default `(0, 0)`. -/
def dGet (monthly : List (ℕ × ℤ × ℤ)) (k : ℕ) : ℤ × ℤ :=
  ((monthly.find? (fun p => p.1 == k)).map Prod.snd).getD (0, 0)

/-- `[1..12]`, the month range of the report loop. -/
def monthRange : List ℕ := List.range' 1 12

/-- Keys of `monthly` after the report loop (bot.py:320-327): accessing
`monthly[m]` for `m in range(1, 13)` on a defaultdict inserts every missing
month (with zero totals) at the end, in ascending order. -/
def keysAfterReport (monthly : List (ℕ × ℤ × ℤ)) : List ℕ :=
  monthly.map Prod.fst ++
    monthRange.filter (fun m => !(monthly.map Prod.fst).contains m)

/-- `months_with_data` (bot.py:330): keys with a non-zero total, in the
dict's insertion order. -/
def monthsWithData (monthly : List (ℕ × ℤ × ℤ)) : List ℕ :=
  (keysAfterReport monthly).filter
    (fun m => decide ((dGet monthly m).1 ≠ 0 ∨ (dGet monthly m).2 ≠ 0))

/-- Python's `max(xs, key=f)`: scan keeping the current maximum, replacing
it only on a strictly greater key — so ties keep the EARLIER element. -/
def pyMax (f : ℕ → ℤ) : List ℕ → Option ℕ
  | [] => none
  | x :: xs => some (xs.foldl (fun cur y => if f cur < f y then y else cur) x)

/-- The totals accumulated by the report loop (bot.py:318-327); months whose
two totals are both zero are skipped (which cannot change the sums). -/
def yearTotals (monthly : List (ℕ × ℤ × ℤ)) : ℤ × ℤ :=
  monthRange.foldl (fun (tc : ℤ × ℤ) m =>
    let v := dGet monthly m
    if v.1 = 0 ∧ v.2 = 0 then tc else (tc.1 + v.1, tc.2 + v.2)) (0, 0)

/-- Model of Python `int(s)` on a string: optional surrounding whitespace,
optional sign, non-empty digit run with single `_` separators allowed
between digits. -/
def pyInt (l : List Char) : Option ℤ :=
  let s := pyStrip l
  let sd : ℤ × List Char :=
    match s with
    | '+' :: t => (1, t)
    | '-' :: t => (-1, t)
    | _ => (1, s)
  let ds := sd.2
  if ds ≠ [] ∧ ds.all (fun c => isDigitChar c || c == '_') = true ∧
     ds.head? ≠ some '_' ∧ ds.getLast? ≠ some '_' ∧
     (ds.zip ds.tail).all (fun p => !(p.1 == '_' && p.2 == '_')) = true then
    some (sd.1 * natOfDigits (ds.filter isDigitChar))
  else none

/-- Default of the `OWNER_USERNAME` environment read (bot.py:36), with its
`lstrip("@")` applied. -/
def OWNER_USERNAME : List Char := ofStr "ltkngan198"

/-- Target-user selection of `summary_year` (bot.py:291-293): only when the
requester IS the owner and a second argument exists is the target retargeted
(`args[1].replace("@", "").strip() or requester`); otherwise the extra
argument is silently ignored. -/
def targetUserOf (owner requester : List Char) (args : List (List Char)) :
    List Char :=
  if 1 < args.length ∧ requester = owner then
    let t := pyStrip ((args.getD 1 []).filter (fun c => c ≠ '@'))
    if t = [] then requester else t
  else requester

/-- Outcome of `/year` (`summary_year`, bot.py:273-349). -/
inductive YearRes
  | usage
  | badYear
  | noData (year : ℤ) (target : List Char)
  | exn
  | report (year : ℤ) (target : List Char) (totalThu totalChi : ℤ)
      (worst best : ℕ)
  deriving DecidableEq, Repr

/-- Model of `summary_year(update, context)` (bot.py:273-349).  `owner` is
the `OWNER_USERNAME` constant, `requester` the `_safe_username` of the
caller, `args` the command arguments, `rows` the store contents.  `exn`
models the `ValueError` `max([])` raises when every in-scope row has amount
zero (possible only for rows written outside this program). -/
def summary_year (owner requester : List Char) (args : List (List Char))
    (rows : List Row) : YearRes :=
  match args with
  | [] => .usage
  | a0 :: _ =>
    match pyInt a0 with
    | none => .badYear
    | some year =>
      let target := targetUserOf owner requester args
      let monthly := buildMonthly rows target year
      if monthly = [] then .noData year target
      else
        let tots := yearTotals monthly
        let mwd := monthsWithData monthly
        match pyMax (fun m => (dGet monthly m).2) mwd,
              pyMax (fun m => (dGet monthly m).1 - (dGet monthly m).2) mwd with
        | some w, some b => .report year target tots.1 tots.2 w b
        | _, _ => .exn

/-!
## `handle_text` (bot.py:354-440)
-/
/-- Whether `needle` starts `hay`. -/
def startsWithSeq : List Char → List Char → Bool
  | [], _ => true
  | _ :: _, [] => false
  | a :: as, b :: bs => a == b && startsWithSeq as bs

/-- Python's `needle in hay` substring test. -/
def containsSeq (needle : List Char) : List Char → Bool
  | [] => needle.isEmpty
  | hay@(_ :: t) => startsWithSeq needle hay || containsSeq needle t

/-- Model of `re.fullmatch(r"(?i)(day|ngay)\s+(\d{8})", text)`: the captured
8-digit group, if the whole text matches. -/
def quickDayMatch (l : List Char) : Option (List Char) :=
  let u := l.map pyUpper
  let afterKw : Option (List Char) :=
    if u.take 3 = ofStr "DAY" then some (l.drop 3)
    else if u.take 4 = ofStr "NGAY" then some (l.drop 4)
    else none
  match afterKw with
  | none => none
  | some rest =>
    let sp := rest.takeWhile isSpaceChar
    let ds := rest.dropWhile isSpaceChar
    if sp ≠ [] ∧ ds.length = 8 ∧ ds.all isDigitChar = true then some ds else none

/-- Model of `re.fullmatch(r"(?i)(month|thang)\s+(\d{6})", text)`. -/
def quickMonthMatch (l : List Char) : Option (List Char) :=
  let u := l.map pyUpper
  let afterKw : Option (List Char) :=
    if u.take 5 = ofStr "MONTH" then some (l.drop 5)
    else if u.take 5 = ofStr "THANG" then some (l.drop 5)
    else none
  match afterKw with
  | none => none
  | some rest =>
    let sp := rest.takeWhile isSpaceChar
    let ds := rest.dropWhile isSpaceChar
    if sp ≠ [] ∧ ds.length = 6 ∧ ds.all isDigitChar = true then some ds else none

/-- The `summary_day(update, context, yyyymmdd)` quick-command path
(bot.py:202-228): a bad date string yields the error message (`none`). -/
def quickDayTotals (rows : List Row) (d8 : List Char) : Option (ℤ × ℤ) :=
  match strptime8 d8 with
  | none => none
  | some t => some (summaryDayTotals rows t)

/-- The `summary_month(update, context, yyyymm)` quick-command path
(bot.py:233-268): month outside `1..12` yields the error message. -/
def quickMonthTotals (rows : List Row) (d6 : List Char) : Option (ℤ × ℤ) :=
  let y := natOfDigits (d6.take 4)
  let m := natOfDigits (d6.drop 4)
  if m < 1 ∨ 12 < m then none
  else some (summaryMonthTotals rows y m)

/-- Outcome of one `handle_text` call (which reply branch was taken). -/
inductive HandleRes
  | ignored
  | modePrompt (m : List Char)
  | yearHint
  | monthReport (t : ℤ × ℤ)
  | dayReport (t : ℤ × ℤ)
  | helpMsg
  | quickDay (t : Option (ℤ × ℤ))
  | quickMonth (t : Option (ℤ × ℤ))
  | badFormat
  | exn
  | wrote (ok errors : ℕ)
  deriving DecidableEq, Repr

/-- State and outcome after `handle_text`: the per-user `user_data["mode"]`,
the store contents, and the reply branch. -/
structure HandleOut where
  mode : Option (List Char)
  store : List Row
  res : HandleRes
  deriving DecidableEq, Repr

/-- Model of `handle_text(update, context)` (bot.py:354-440).  `today` is
the ambient clock date, `mode` the incoming `user_data["mode"]`, `username`
the `_safe_username`, `oracle` the store-append success oracle, `store` the
current store, `rawText` the message text.  `HandleRes.exn` models the
uncaught `ValueError` a bad 8-digit date prefix raises out of
`parse_lines` — nothing is persisted and no reply is sent. -/
def handle_text (today : PyDate) (mode : Option (List Char))
    (username : List Char) (oracle : List Bool) (store : List Row)
    (rawText : List Char) : HandleOut :=
  let text := pyStrip rawText
  if text = [] then ⟨mode, store, .ignored⟩
  else if text = ofStr "➕ Ghi thu" ∨ text = ofStr "➖ Ghi chi" then
    let m := if containsSeq (ofStr "thu") text then ofStr "thu" else ofStr "chi"
    ⟨some m, store, .modePrompt m⟩
  else if text = ofStr "📊 Tổng kết ngày" ∨ text = ofStr "📅 Tổng kết tháng" ∨
      text = ofStr "📈 Tổng kết năm" then
    if containsSeq (ofStr "năm") text then ⟨mode, store, .yearHint⟩
    else if containsSeq (ofStr "tháng") text then
      ⟨mode, store, .monthReport (summaryMonthTotals store today.y today.m)⟩
    else ⟨mode, store, .dayReport (summaryDayTotals store today)⟩
  else if text = ofStr "ℹ️ Help" then ⟨mode, store, .helpMsg⟩
  else
    match quickDayMatch text with
    | some d8 => ⟨mode, store, .quickDay (quickDayTotals store d8)⟩
    | none =>
      match quickMonthMatch text with
      | some d6 => ⟨mode, store, .quickMonth (quickMonthTotals store d6)⟩
      | none =>
        match parse_lines today mode text with
        | .error _ => ⟨mode, store, .exn⟩
        | .ok [] => ⟨mode, store, .badFormat⟩
        | .ok entries =>
          let r := writeLoop username oracle store entries
          ⟨mode, r.1, .wrote r.2.1 r.2.2⟩

/-- A line carrying an 8-digit date prefix whose digits are not a valid
calendar date — exactly the lines on which `parse_lines` raises. -/
def hasBadDate (l : List Char) : Bool :=
  match datePrefixMatch l with
  | some p => (strptime8 p.1).isNone
  | none => false

/-- The success flag of each of the first `n` append calls: the oracle
entry when present, `true` once the oracle is exhausted. -/
def flagsFor : List Bool → ℕ → List Bool
  | _, 0 => []
  | o, n + 1 => o.headD true :: flagsFor o.tail n

/-- Which user a `/year` outcome reports on, when it reports on one. -/
def yearResTarget : YearRes → Option (List Char)
  | .noData _ t => some t
  | .report _ t _ _ _ _ => some t
  | _ => none

/-!
## Aggregation lemmas (for C6/C7)
-/
/-- The `(thu, chi)` contribution of one signed amount, as classified by the
report loops: positive into income, non-positive as `abs` into expense. -/
def inc (amt : ℤ) : ℤ × ℤ := if 0 < amt then (amt, 0) else (0, |amt|)

/-- Income under the spec's contract: sum of the positive amounts. -/
def sumIncome (l : List ℤ) : ℤ := (l.filter (fun a => decide (0 < a))).sum

/-- Expense under the spec's contract: sum of `abs` of the negative
amounts. -/
def sumExpense (l : List ℤ) : ℤ :=
  ((l.filter (fun a => decide (a < 0))).map (fun a => |a|)).sum

/-- The in-scope test of the month report, as a predicate. -/
def isoMonthScope (y m : ℕ) (r : Row) : Bool :=
  match parseISO r.date with
  | some d => d.y == y && d.m == m
  | none => false

/-- The in-scope test of the year report (note the USER filter, present
only here), as a predicate over a row. -/
def isoYearMonthScope (target : List Char) (year : ℤ) (m : ℕ) (r : Row) : Bool :=
  r.user == target &&
    (match parseISO r.date with
     | some d => decide ((d.y : ℤ) = year) && d.m == m
     | none => false)

/-!
## `summary_year` best/worst selection (C7)
-/
/-- Deduplication keeping first occurrences — the key order a Python dict
acquires while scanning a sequence. -/
def firstOccur (xs : List ℕ) : List ℕ :=
  xs.foldl (fun acc m => if acc.contains m then acc else acc ++ [m]) []

/-!
## Token grammar and the magnitude theorem (C5)

A well-formed amount token: optional sign, a non-empty digit run with an
optional non-empty fractional digit run, an optional unit letter.  The
lemmas below run the `_AMOUNT_RE` matcher symbolically over such a token.
-/
/-- Rendering of the optional fractional part. -/
def fracRender : Option (List Char) → List Char
  | some fs => '.' :: fs
  | none => []

/-- An amount token `[+|-] digits [. digits] [K|M|k|m]`. -/
structure AmtToken where
  sign : Option Char
  intPart : List Char
  fracPart : Option (List Char)
  unit : Option Char

/-- Well-formedness of an amount token. -/
def AmtToken.wf (t : AmtToken) : Prop :=
  (t.sign = none ∨ t.sign = some '+' ∨ t.sign = some '-') ∧
  t.intPart ≠ [] ∧ (∀ c ∈ t.intPart, isDigitChar c = true) ∧
  (∀ l, t.fracPart = some l → l ≠ [] ∧ ∀ c ∈ l, isDigitChar c = true) ∧
  (t.unit = none ∨ t.unit = some 'K' ∨ t.unit = some 'M' ∨
    t.unit = some 'k' ∨ t.unit = some 'm')

/-- The token's concrete text. -/
def AmtToken.render (t : AmtToken) : List Char :=
  optChar t.sign ++ t.intPart ++ fracRender t.fracPart ++ optChar t.unit

/-- The magnitude the code computes for the token: correctly-rounded
binary64 value of the digits, scaled by 1 000 / 1 000 000 in binary64 for a
unit, truncated toward zero. -/
def AmtToken.pyMagnitude (t : AmtToken) : ℕ :=
  let num0 := roundFloat (decimalOf (t.intPart ++ fracRender t.fracPart))
  let num := match t.unit.map pyUpper with
    | some 'K' => roundFloat (num0.1 * 1000, num0.2)
    | some 'M' => roundFloat (num0.1 * 1000000, num0.2)
    | _ => num0
  num.1 / num.2

/-!
`takeWhile`/`dropWhile` over a run followed by a non-matching head.
-/
/-- `rest` does not start with a `p`-character. -/
def headNot (p : Char → Bool) : List Char → Prop
  | [] => True
  | c :: _ => p c = false

/-!  ## Theorems  -/

example : parse_amount_with_sign (ofStr "+4M LUONG") = (4000000, none) := by decide

example : strip_amount (ofStr "+4M LUONG") = ofStr "+ LUONG" := by decide

example : parse_amount_with_sign (ofStr "-20K CF") = (20000, none) := by decide

example : strip_amount (ofStr "-20K CF") = ofStr "- CF" := by decide

example : parse_amount_with_sign (ofStr "20K CF") = (20000, none) := by decide

example : strip_amount (ofStr "20K CF") = ofStr "CF" := by decide

example : parse_amount_with_sign (ofStr "5 K") = (5000, none) := by decide

example : strip_amount (ofStr "5 K") = [] := by decide

example : parse_amount_with_sign (ofStr "1.5M RENT") = (1500000, none) := by decide

example : parse_amount_with_sign (ofStr "CF-20K") = (20000, some '-') := by decide

example : strip_amount (ofStr "CF-20K") = ofStr "CF" := by decide

example : parse_amount_with_sign (ofStr "A+ 5K") = (5000, some '+') := by decide

example : strip_amount (ofStr "A+ 5K") = ofStr "A" := by decide

example : parse_amount_with_sign (ofStr "X 5\t K Y") = (5000, none) := by decide

example : strip_amount (ofStr "X 5\t K Y") = ofStr "X Y" := by decide

example : parse_amount_with_sign (ofStr "12.55X") = (12, none) := by decide

example : strip_amount (ofStr "12.55X") = ofStr ".55X" := by decide

example : parse_amount_with_sign (ofStr "20KX") = (0, none) := by decide

example : parse_amount_with_sign (ofStr "1,000 CF") = (1000, none) := by decide

example : strip_amount (ofStr "1,000 CF") = ofStr ",000 CF" := by decide

example : parse_amount_with_sign (ofStr "1.001K") = (1000, none) := by decide

example : parse_amount_with_sign (ofStr "0.99999999999999999999 X") = (1, none) := by decide

example : parse_amount_with_sign (ofStr "8.7K") = (8700, none) := by decide

example : parse_amount_with_sign (ofStr "5 k x") = (5000, none) := by decide

example : strip_amount (ofStr "5 k x") = ofStr "x" := by decide

example :
    parse_lines ⟨2026, 1, 15⟩ none (ofStr "20K CF\n+1M LUONG") =
      .ok [⟨⟨2026, 1, 15⟩, -20000, ofStr "CF"⟩,
           ⟨⟨2026, 1, 15⟩, -1000000, ofStr "+ LUONG"⟩] := by decide

example :
    parse_lines ⟨2026, 1, 15⟩ (some (ofStr "thu")) (ofStr "20K CF") =
      .ok [⟨⟨2026, 1, 15⟩, 20000, ofStr "CF"⟩] := by decide

example :
    parse_lines ⟨2026, 1, 15⟩ none (ofStr "20260104 500K SPA") =
      .ok [⟨⟨2026, 1, 4⟩, -500000, ofStr "SPA"⟩] := by decide

example :
    parse_lines ⟨2026, 1, 15⟩ none (ofStr "10K A\n20269999 20K B\n30K C") =
      .error () := by decide

example :
    handle_text ⟨2026, 1, 15⟩ (some (ofStr "thu")) (ofStr "u") [] []
      (ofStr "20K CF") =
      ⟨some (ofStr "thu"),
       [⟨ofStr "2026-01-15", ofStr "u", 20000, ofStr "CF"⟩], .wrote 1 0⟩ := by
  decide

example :
    handle_text ⟨2026, 1, 15⟩ none (ofStr "u") [] [] (ofStr "➕ Ghi thu") =
      ⟨some (ofStr "thu"), [], .modePrompt (ofStr "thu")⟩ := by decide

example : strptime8 (ofStr "20260104") = some ⟨2026, 1, 4⟩ := by decide

example : strptime8 (ofStr "20269999") = none := by decide

example : strptime8 (ofStr "20240229") = some ⟨2024, 2, 29⟩ := by decide

example : strptime8 (ofStr "20230229") = none := by decide

example : strDate ⟨2026, 1, 5⟩ = ofStr "2026-01-05" := by decide

example : parseISO (ofStr "2026-1-5") = some ⟨2026, 1, 5⟩ := by decide

example : parseISO (ofStr "2026-001-5") = none := by decide

example : pySplitlines (ofStr "a\r\nb\nc") = [ofStr "a", ofStr "b", ofStr "c"] := by decide

example : pyStrip (ofStr "  ab c\t") = ofStr "ab c" := by decide

/-!
## Helper lemmas
-/
/-- With no explicit sign, an unset mode resolves exactly like expense mode:
both fall to CHI (negative). -/
theorem resolveAmount_none_eq_chi (s : Option Char) (a : ℕ) :
    resolveAmount s none a = resolveAmount s (some (ofStr "chi")) a := by
  unfold resolveAmount
  split_ifs with h1 h2 h3 h4 h5 <;> simp_all [ofStr]

/-- `lineEntry` is mode-independent up to `resolveAmount`. -/
theorem lineEntry_none_eq_chi (td : PyDate) (l : List Char) :
    lineEntry td none l = lineEntry td (some (ofStr "chi")) l := by
  unfold lineEntry
  simp only [resolveAmount_none_eq_chi]

theorem parseLinesCore_none_eq_chi (td : PyDate) (ls : List (List Char)) :
    parseLinesCore td none ls = parseLinesCore td (some (ofStr "chi")) ls := by
  induction ls with
  | nil => rfl
  | cons l t ih =>
    unfold parseLinesCore
    rw [lineEntry_none_eq_chi, ih]

/-- A bad date prefix makes `lineEntry` raise, whatever the mode. -/
theorem lineEntry_error_of_hasBadDate (td : PyDate) (mode : Option (List Char))
    (l : List Char) (h : hasBadDate l = true) :
    lineEntry td mode l = .error () := by
  unfold hasBadDate at h
  unfold lineEntry
  cases hdp : datePrefixMatch l with
  | none => rw [hdp] at h; exact absurd h (by simp)
  | some p =>
    obtain ⟨d8, rest⟩ := p
    rw [hdp] at h
    simp only [Option.isNone_iff_eq_none] at h
    simp [h]

/-- Case analysis of `handle_text`: either the mode-menu branch ran (mode is
overwritten, store untouched), or the main-input branch wrote a parsed
non-empty batch (mode untouched), or neither mode nor store changed. -/
theorem handle_text_cases (today : PyDate) (mode : Option (List Char))
    (username : List Char) (oracle : List Bool) (store : List Row)
    (rawText : List Char) :
    (∃ m, handle_text today mode username oracle store rawText =
        ⟨some m, store, .modePrompt m⟩) ∨
    (∃ entries, parse_lines today mode (pyStrip rawText) = .ok entries ∧
        entries ≠ [] ∧
        handle_text today mode username oracle store rawText =
          ⟨mode, (writeLoop username oracle store entries).1,
           .wrote (writeLoop username oracle store entries).2.1
                  (writeLoop username oracle store entries).2.2⟩) ∨
    ((handle_text today mode username oracle store rawText).mode = mode ∧
     (handle_text today mode username oracle store rawText).store = store) := by
  unfold handle_text
  dsimp only
  repeat' first
    | exact Or.inr (Or.inr ⟨rfl, rfl⟩)
    | exact Or.inl ⟨_, rfl⟩
    | split
  all_goals
    exact Or.inr (Or.inl ⟨_, by assumption, by assumption, rfl⟩)

/-!
## Claims
-/
/-- C1 (code bug): the claim — an explicit leading `+`/`-` makes
`has_explicit_sign` true and fixes the signed amount independently of the
session mode — is the documented intent (`parse_lines` docstring: "If amount
has '+' => THU"; HELP_TEXT: "+4M LUONG => Thu 4,000,000"), but the code
cannot deliver it: `_AMOUNT_RE` puts `\b` BEFORE `([+-]?)`, and no word
boundary exists at the start of `"+4M LUONG"` (both sides non-word), so the
match starts at the digit and the sign group is empty.  The help-text's own
example is therefore parsed with `sign = None`, recorded as −4 000 000 under
an unset mode (default CHI) with the stray `+` left inside the category, and
flips to +4 000 000 when the mode is income — the mode does change the
amount of an explicitly-signed line. -/
theorem C1_explicit_sign_not_detected :
    (parse_amount_with_sign (ofStr "+4M LUONG")).2 = none ∧
    parse_lines ⟨2026, 1, 15⟩ none (ofStr "+4M LUONG") =
      .ok [⟨⟨2026, 1, 15⟩, -4000000, ofStr "+ LUONG"⟩] ∧
    parse_lines ⟨2026, 1, 15⟩ (some (ofStr "thu")) (ofStr "+4M LUONG") =
      .ok [⟨⟨2026, 1, 15⟩, 4000000, ofStr "+ LUONG"⟩] := by
  refine ⟨by decide, by decide, by decide⟩

/-- C2 (counterexample): the spec's own example batch `["20K CF",
"+1M LUONG"]` with mode unset is NOT rejected as "mode required": both lines
are resolved (to −20 000 and −1 000 000) and both are persisted. -/
theorem C2_counterexample :
    handle_text ⟨2026, 1, 15⟩ none (ofStr "u") [] []
      (ofStr "20K CF\n+1M LUONG") =
      ⟨none,
       [⟨ofStr "2026-01-15", ofStr "u", -20000, ofStr "CF"⟩,
        ⟨ofStr "2026-01-15", ofStr "u", -1000000, ofStr "+ LUONG"⟩],
       .wrote 2 0⟩ := by decide

/-- C2 (amended): with the session mode unset, `parse_lines` treats every
line exactly as in expense mode — unsigned lines default to CHI (negative)
and the batch proceeds to persistence; there is no "mode required"
rejection anywhere in the code (`parse_lines` returns a plain list and
`handle_text` writes it). -/
theorem C2_unset_defaults_to_expense (today : PyDate) (text : List Char) :
    parse_lines today none text = parse_lines today (some (ofStr "chi")) text := by
  unfold parse_lines
  exact parseLinesCore_none_eq_chi _ _

/-- C3 (counterexample): a successful one-line batch write (`wrote 1 0`)
leaves the session mode at `some "thu"` — it is NOT reset to unset.
`handle_text` never touches `user_data` on the main input path. -/
theorem C3_counterexample :
    handle_text ⟨2026, 1, 15⟩ (some (ofStr "thu")) (ofStr "u") [] []
      (ofStr "20K CF") =
      ⟨some (ofStr "thu"),
       [⟨ofStr "2026-01-15", ofStr "u", 20000, ofStr "CF"⟩], .wrote 1 0⟩ ∧
    some (ofStr "thu") ≠ (none : Option (List Char)) := by
  exact ⟨by decide, by decide⟩

/-- C3 (amended): after ANY batch write — successful or not — the session
mode is left exactly as it was; the code has no reset, so a later unsigned
batch silently reuses the stale mode. -/
theorem C3_mode_unchanged_by_write (today : PyDate) (mode : Option (List Char))
    (username : List Char) (oracle : List Bool) (store : List Row)
    (rawText : List Char) (ok errors : ℕ)
    (h : (handle_text today mode username oracle store rawText).res =
      .wrote ok errors) :
    (handle_text today mode username oracle store rawText).mode = mode := by
  rcases handle_text_cases today mode username oracle store rawText with
    ⟨m, hm⟩ | ⟨entries, _, _, hw⟩ | ⟨hmode, _⟩
  · rw [hm] at h; exact absurd h (by simp)
  · rw [hw]
  · exact hmode

/-- C3 witness: a concrete successful write (`wrote 1 0`) under mode
`some "chi"` keeps mode `some "chi"`. -/
theorem C3_mode_unchanged_by_write_witness :
    (handle_text ⟨2026, 1, 15⟩ (some (ofStr "chi")) (ofStr "u") [] []
      (ofStr "30K X")).mode = some (ofStr "chi") :=
  C3_mode_unchanged_by_write ⟨2026, 1, 15⟩ (some (ofStr "chi")) (ofStr "u")
    [] [] (ofStr "30K X") 1 0 (by decide)

/-- C4 (counterexample): in the batch `"10K A\n20269999 20K B\n30K C"` the
middle line's 8-digit prefix is not a valid calendar date; `strptime`
raises, `parse_lines` aborts, and NO line of the batch — including the two
valid ones — is parsed or persisted; there is no per-line error summary
(the exception escapes the handler). -/
theorem C4_counterexample :
    parse_lines ⟨2026, 1, 15⟩ none (ofStr "10K A\n20269999 20K B\n30K C") =
      .error () ∧
    handle_text ⟨2026, 1, 15⟩ none (ofStr "u") [] []
      (ofStr "10K A\n20269999 20K B\n30K C") = ⟨none, [], .exn⟩ := by
  exact ⟨by decide, by decide⟩

/-- C4 (amended): a line whose 8-digit date prefix is not a valid calendar
date raises an uncaught `ValueError` that aborts the whole message: whenever
any line of the batch has a bad date, `parse_lines` returns the exception
(first conjunct), and when the parse raises, `handle_text` persists nothing
(second conjunct) — the other lines are never written and no rejected-lines
summary exists. -/
theorem C4_bad_date_aborts_message :
    (∀ (today : PyDate) (mode : Option (List Char)) (lines : List (List Char)),
      (∃ l ∈ lines, hasBadDate l = true) →
      parseLinesCore today mode lines = .error ()) ∧
    (∀ (today : PyDate) (mode : Option (List Char)) (username : List Char)
      (oracle : List Bool) (store : List Row) (rawText : List Char),
      (handle_text today mode username oracle store rawText).res = .exn →
      (handle_text today mode username oracle store rawText).store = store) := by
  constructor
  · intro today mode lines h
    induction lines with
    | nil => exact absurd h (by simp)
    | cons l t ih =>
      rcases h with ⟨l', hl', hbad⟩
      rcases List.mem_cons.mp hl' with rfl | hmem
      · unfold parseLinesCore
        rw [lineEntry_error_of_hasBadDate today mode l' hbad]
      · unfold parseLinesCore
        cases hle : lineEntry today mode l with
        | error e => rfl
        | ok o =>
          cases o with
          | none => exact ih ⟨l', hmem, hbad⟩
          | some ent => rw [ih ⟨l', hmem, hbad⟩]
  · intro today mode username oracle store rawText h
    rcases handle_text_cases today mode username oracle store rawText with
      ⟨m, hm⟩ | ⟨entries, _, _, hw⟩ | ⟨_, hstore⟩
    · rw [hm] at h; exact absurd h (by simp)
    · rw [hw] at h; exact absurd h (by simp)
    · exact hstore

/-- C4 witness: both parts applied at a concrete bad-date batch. -/
theorem C4_bad_date_aborts_message_witness :
    parseLinesCore ⟨2026, 1, 15⟩ none [ofStr "20260230 5K X"] = .error () ∧
    (handle_text ⟨2026, 1, 15⟩ none (ofStr "u") []
      [⟨ofStr "2026-01-01", ofStr "u", 7, ofStr "Z"⟩]
      (ofStr "20260230 5K X")).store =
      [⟨ofStr "2026-01-01", ofStr "u", 7, ofStr "Z"⟩] :=
  ⟨C4_bad_date_aborts_message.1 ⟨2026, 1, 15⟩ none [ofStr "20260230 5K X"]
    ⟨ofStr "20260230 5K X", by simp, by decide⟩,
   C4_bad_date_aborts_message.2 ⟨2026, 1, 15⟩ none (ofStr "u") []
    [⟨ofStr "2026-01-01", ofStr "u", 7, ofStr "Z"⟩] (ofStr "20260230 5K X")
    (by decide)⟩

/-- C9 (counterexample): with three entries and a store that fails exactly
on the second append, the loop does NOT stop: the third entry is still
attempted and written, and the reply reports `ok = 2, errors = 1` — the
claim's stop-on-failure policy would leave `ok = 1` and the third entry
unattempted. -/
theorem C9_counterexample :
    writeLoop (ofStr "u") [true, false, true] []
      [⟨⟨2026, 1, 5⟩, -1000, ofStr "A"⟩, ⟨⟨2026, 1, 6⟩, 2000, ofStr "B"⟩,
       ⟨⟨2026, 1, 7⟩, -3000, ofStr "C"⟩] =
      ([⟨ofStr "2026-01-05", ofStr "u", -1000, ofStr "A"⟩,
        ⟨ofStr "2026-01-07", ofStr "u", -3000, ofStr "C"⟩], 2, 1) := by decide

/-- C9 (amended): the write loop attempts EVERY entry regardless of earlier
store failures: the final store appends exactly the successful entries (in
order, each failure's write simply missing — prior writes preserved, no
rollback), `ok` counts the successes and `errors` the failures, and the two
counts are surfaced in the reply (bot.py:436-440). -/
theorem C9_write_loop_continues (user : List Char) (oracle : List Bool)
    (store : List Row) (entries : List Entry) :
    writeLoop user oracle store entries =
      (store ++ (entries.zip (flagsFor oracle entries.length)).filterMap
          (fun p => if p.2 then
            some (append_expense p.1.date user p.1.amount p.1.cat) else none),
       ((entries.zip (flagsFor oracle entries.length)).filter
          (fun p => p.2)).length,
       ((entries.zip (flagsFor oracle entries.length)).filter
          (fun p => !p.2)).length) := by
  induction entries generalizing oracle store with
  | nil => simp [writeLoop, flagsFor]
  | cons e es ih =>
    cases oracle with
    | nil => simp [writeLoop, flagsFor, ih]
    | cons b t => cases b <;> simp [writeLoop, flagsFor, ih]

/-- C8 (counterexample): requester `bob` (not the owner `ltkngan198`)
explicitly asks for `@alice`'s 2026 report while alice has 2026 data; the
code silently serves BOB's own data (`report` targeting `bob` with bob's
totals) instead of rejecting with a permission error — no permission
outcome exists anywhere in `summary_year`. -/
theorem C8_counterexample :
    summary_year OWNER_USERNAME (ofStr "bob")
      [ofStr "2026", ofStr "@alice"]
      [⟨ofStr "2026-02-10", ofStr "alice", -50000, ofStr "SPA"⟩,
       ⟨ofStr "2026-05-01", ofStr "bob", 99, ofStr "CF"⟩] =
      .report 2026 (ofStr "bob") 99 0 5 5 ∧
    ofStr "bob" ≠ ofStr "alice" := by
  exact ⟨by decide, by decide⟩

/-- C8 (amended): a non-owner's extra user argument is silently ignored:
whenever `summary_year` produces a targeted outcome (`noData` or `report`)
for a requester who is not the owner, the target is the requester — the
request is redirected to the requester's own data, never rejected. -/
theorem C8_nonowner_redirected (owner requester : List Char)
    (args : List (List Char)) (rows : List Row) (t : List Char)
    (h1 : requester ≠ owner)
    (h2 : yearResTarget (summary_year owner requester args rows) = some t) :
    t = requester := by
  unfold summary_year at h2
  cases args with
  | nil => exact absurd h2 (by simp [yearResTarget])
  | cons a0 rest =>
    dsimp only at h2
    have htu : targetUserOf owner requester (a0 :: rest) = requester := by
      unfold targetUserOf
      rw [if_neg]
      rintro ⟨_, he⟩
      exact h1 he
    cases hpi : pyInt a0 with
    | none => rw [hpi] at h2; exact absurd h2 (by simp [yearResTarget])
    | some year =>
      rw [hpi] at h2
      dsimp only at h2
      rw [htu] at h2
      split at h2
      · simp_all [yearResTarget]
      · split at h2 <;> simp_all [yearResTarget]

/-- C8 witness: a concrete non-owner `/year 2025 @alice` request with an
empty store is served as the requester's own no-data outcome. -/
theorem C8_nonowner_redirected_witness : ofStr "carol" = ofStr "carol" :=
  C8_nonowner_redirected OWNER_USERNAME (ofStr "carol")
    [ofStr "2025", ofStr "@alice"] [] (ofStr "carol") (by decide) (by decide)

/-- Resolving a non-zero magnitude never yields a zero signed amount. -/
theorem resolveAmount_ne_zero (s : Option Char) (mode : Option (List Char))
    (a : ℕ) (ha : a ≠ 0) : resolveAmount s mode a ≠ 0 := by
  unfold resolveAmount
  split_ifs <;> simp [ha]

/-- An entry produced by `lineEntry` passed both `continue` guards. -/
theorem lineEntry_some_inv (td : PyDate) (mode : Option (List Char))
    (l : List Char) (e : Entry) (h : lineEntry td mode l = .ok (some e)) :
    e.amount ≠ 0 ∧ e.cat ≠ [] := by
  unfold lineEntry at h
  dsimp only at h
  split at h
  · exact absurd h (by simp)
  · split at h
    · exact absurd h (by simp)
    · split at h
      · exact absurd h (by simp)
      · rename_i hpa hcat
        obtain rfl : e = ⟨_, _, _⟩ := by
          have := h
          simp only [Except.ok.injEq, Option.some.injEq] at this
          exact this.symm
        exact ⟨resolveAmount_ne_zero _ _ _ hpa, hcat⟩

/-- Every entry returned by the `parse_lines` loop has a non-zero amount
and a non-empty category. -/
theorem parseLinesCore_sound (td : PyDate) (mode : Option (List Char))
    (ls : List (List Char)) (entries : List Entry)
    (h : parseLinesCore td mode ls = .ok entries) :
    ∀ e ∈ entries, e.amount ≠ 0 ∧ e.cat ≠ [] := by
  induction ls generalizing entries with
  | nil =>
    unfold parseLinesCore at h
    simp only [Except.ok.injEq] at h
    subst h
    intro e he
    exact absurd he (by simp)
  | cons l t ih =>
    unfold parseLinesCore at h
    split at h
    · exact absurd h (by simp)
    · exact ih _ h
    · rename_i ent hle
      split at h
      · exact absurd h (by simp)
      · rename_i rest hrest
        simp only [Except.ok.injEq] at h
        subst h
        intro e he
        rcases List.mem_cons.mp he with rfl | hmem
        · exact lineEntry_some_inv td mode l e hle
        · exact ih _ hrest e hmem

/-- Rows present after the write loop are either pre-existing or built by
`append_expense` from one of the batch's entries. -/
theorem writeLoop_mem (user : List Char) (oracle : List Bool)
    (store : List Row) (entries : List Entry) (r : Row)
    (hr : r ∈ (writeLoop user oracle store entries).1) :
    r ∈ store ∨ ∃ e ∈ entries, r = append_expense e.date user e.amount e.cat := by
  induction entries generalizing oracle store with
  | nil =>
    unfold writeLoop at hr
    exact Or.inl hr
  | cons e es ih =>
    unfold writeLoop at hr
    split at hr
    · rcases ih oracle.tail _ hr with hin | ⟨e', he', rfl⟩
      · rcases List.mem_append.mp hin with h1 | h2
        · exact Or.inl h1
        · exact Or.inr ⟨e, List.mem_cons_self e es, by
            simpa using (List.mem_singleton.mp h2)⟩
      · exact Or.inr ⟨e', List.mem_cons_of_mem _ he', rfl⟩
    · rcases ih oracle.tail _ hr with hin | ⟨e', he', rfl⟩
      · exact Or.inl hin
      · exact Or.inr ⟨e', List.mem_cons_of_mem _ he', rfl⟩

/-- C10 (confirmed): every record the batch write adds to the store has a
non-zero amount and a non-empty category — `parse_lines` drops zero
magnitudes and empty categories before sign resolution, sign resolution of
a non-zero magnitude is non-zero, and `append_expense` copies amount and
category verbatim — so the persisted-record invariant is preserved by every
`handle_text` call. -/
theorem C10_persisted_invariant (today : PyDate) (mode : Option (List Char))
    (username : List Char) (oracle : List Bool) (store : List Row)
    (rawText : List Char) :
    ∀ r ∈ (handle_text today mode username oracle store rawText).store,
      r ∈ store ∨ (r.amount ≠ 0 ∧ r.category ≠ []) := by
  intro r hr
  rcases handle_text_cases today mode username oracle store rawText with
    ⟨m, hm⟩ | ⟨entries, hpl, _, hw⟩ | ⟨_, hstore⟩
  · rw [hm] at hr; exact Or.inl hr
  · rw [hw] at hr
    rcases writeLoop_mem username oracle store entries r hr with hin | ⟨e, he, rfl⟩
    · exact Or.inl hin
    · right
      unfold parse_lines at hpl
      have hse := parseLinesCore_sound today mode _ entries hpl e he
      exact ⟨hse.1, hse.2⟩
  · rw [hstore] at hr; exact Or.inl hr

/-- C10 witness: the record written for the line `"7K GAS"` on an empty
store satisfies the invariant. -/
theorem C10_persisted_invariant_witness :
    (⟨ofStr "2026-01-15", ofStr "u", -7000, ofStr "GAS"⟩ : Row) ∈
      ([] : List Row) ∨
    ((⟨ofStr "2026-01-15", ofStr "u", -7000, ofStr "GAS"⟩ : Row).amount ≠ 0 ∧
     (⟨ofStr "2026-01-15", ofStr "u", -7000, ofStr "GAS"⟩ : Row).category ≠ []) :=
  C10_persisted_invariant ⟨2026, 1, 15⟩ none (ofStr "u") [] [] (ofStr "7K GAS")
    ⟨ofStr "2026-01-15", ofStr "u", -7000, ofStr "GAS"⟩ (by decide)

/-- Summing the per-amount contributions gives exactly (income, expense):
zero amounts contribute nothing to either side. -/
theorem mapInc_sum (l : List ℤ) :
    (l.map inc).sum = (sumIncome l, sumExpense l) := by
  induction l with
  | nil => simp [sumIncome, sumExpense, Prod.ext_iff]
  | cons a t ih =>
    rcases lt_trichotomy 0 a with h | h | h
    · have h2 : ¬ a < 0 := not_lt.mpr h.le
      simp [inc, sumIncome, sumExpense, h, h2, ih, Prod.ext_iff, Prod.mk_add_mk]
    · subst h
      simp [inc, sumIncome, sumExpense, ih, Prod.ext_iff, Prod.mk_add_mk]
    · have h2 : ¬ (0 : ℤ) < a := not_lt.mpr h.le
      simp [inc, sumIncome, sumExpense, h, h2, ih, Prod.ext_iff, Prod.mk_add_mk]

/-- Generic evaluation of the report folds: any step of the shape
"if in scope, add the contribution" accumulates the contributions of the
in-scope rows. -/
theorem foldl_inc_general (p : Row → Bool) (step : ℤ × ℤ → Row → ℤ × ℤ)
    (hstep : ∀ tc r, step tc r = if p r then tc + inc r.amount else tc) :
    ∀ (rows : List Row) (tc : ℤ × ℤ),
      rows.foldl step tc =
        tc + ((rows.filter p).map (fun r => inc r.amount)).sum := by
  intro rows
  induction rows with
  | nil => intro tc; simp
  | cons r t ih =>
    intro tc
    rw [List.foldl_cons, hstep]
    by_cases hp : p r = true
    · rw [if_pos hp, ih]
      simp [hp, add_assoc]
    · rw [if_neg hp, ih]
      simp [hp]

/-- Lookup against a cons cell. -/
theorem dGet_cons (a : ℕ) (b : ℤ × ℤ) (t : List (ℕ × ℤ × ℤ)) (k' : ℕ) :
    dGet ((a, b) :: t) k' = if a = k' then b else dGet t k' := by
  unfold dGet
  rw [List.find?_cons]
  by_cases h : a = k'
  · subst h; simp
  · have hb : (a == k') = false := beq_eq_false_iff_ne.mpr h
    simp [hb, h]

/-- Lookup in the empty dictionary gives the default. -/
theorem dGet_nil (k' : ℕ) : dGet [] k' = (0, 0) := rfl

/-- The in-place update of `dUpsert` adds the row's contribution to the
updated key's value. -/
theorem dUpsert_head_update (v : ℤ × ℤ) (amt : ℤ) :
    (if 0 < amt then (v.1 + amt, v.2) else (v.1, v.2 + |amt|)) = v + inc amt := by
  unfold inc
  split_ifs <;> simp [Prod.ext_iff]

/-- The defaultdict update of `buildMonthly` adds the row's contribution. -/
theorem dGet_dUpsert (k : ℕ) (amt : ℤ) (l : List (ℕ × ℤ × ℤ)) (k' : ℕ) :
    dGet (dUpsert k amt l) k' = dGet l k' + (if k' = k then inc amt else 0) := by
  induction l with
  | nil =>
    have h0 : dUpsert k amt [] = [(k, inc amt)] := rfl
    rw [h0, dGet_nil]
    by_cases h : k' = k
    · subst h
      rw [dGet_cons, if_pos rfl, if_pos rfl]
      simp [Prod.ext_iff]
    · rw [dGet_cons, if_neg (fun he => h he.symm), dGet_nil, if_neg h, add_zero]
  | cons p t ih =>
    obtain ⟨k0, v⟩ := p
    unfold dUpsert
    by_cases h0 : k0 = k
    · rw [if_pos h0, dUpsert_head_update]
      by_cases h1 : k0 = k'
      · have hk : k' = k := h1.symm.trans h0
        rw [dGet_cons, if_pos h1, dGet_cons, if_pos h1, if_pos hk]
      · have hk : ¬ k' = k := fun he => h1 (h0.trans he.symm)
        rw [dGet_cons, if_neg h1, dGet_cons, if_neg h1, if_neg hk, add_zero]
    · rw [if_neg h0]
      by_cases h1 : k0 = k'
      · have hk : ¬ k' = k := fun he => h0 (h1.trans he)
        rw [dGet_cons, if_pos h1, dGet_cons, if_pos h1, if_neg hk, add_zero]
      · rw [dGet_cons, if_neg h1, dGet_cons, if_neg h1, ih]

/-- Cell-wise evaluation of the `buildMonthly` fold. -/
theorem dGet_buildMonthly_fold (target : List Char) (year : ℤ) (m : ℕ) :
    ∀ (rows : List Row) (acc : List (ℕ × ℤ × ℤ)),
      dGet (rows.foldl (fun acc r =>
        match scopeMonth target year r with
        | none => acc
        | some mo => dUpsert mo r.amount acc) acc) m =
      dGet acc m +
        ((rows.filter (fun r => scopeMonth target year r == some m)).map
          (fun r => inc r.amount)).sum := by
  intro rows
  induction rows with
  | nil => intro acc; simp
  | cons r t ih =>
    intro acc
    rw [List.foldl_cons]
    cases hs : scopeMonth target year r with
    | none =>
      have hb : (scopeMonth target year r == some m) = false := by simp [hs]
      simp [hs, hb, ih]
    | some mo =>
      simp only [hs]
      rw [ih, dGet_dUpsert]
      by_cases hm : m = mo
      · subst hm
        have hb : (scopeMonth target year r == some m) = true := by simp [hs]
        simp [hb, add_assoc]
      · have hb : (scopeMonth target year r == some m) = false := by
          simp [hs]
          exact fun he => hm he.symm
        simp [hb, hm]

/-- The `monthly` cell of `summary_year` for month `m` accumulates exactly
the contributions of the in-scope rows of that month. -/
theorem dGet_buildMonthly (rows : List Row) (target : List Char) (year : ℤ)
    (m : ℕ) :
    dGet (buildMonthly rows target year) m =
      ((rows.filter (fun r => scopeMonth target year r == some m)).map
        (fun r => inc r.amount)).sum := by
  unfold buildMonthly
  rw [dGet_buildMonthly_fold, dGet_nil]
  simp [Prod.ext_iff]

/-- The year-scope test written out: user equality AND a parsing date AND
the matching year, giving the month. -/
theorem scopeMonth_beq (target : List Char) (year : ℤ) (m : ℕ) (r : Row) :
    (scopeMonth target year r == some m) = isoYearMonthScope target year m r := by
  unfold scopeMonth isoYearMonthScope
  by_cases hu : r.user = target
  · have : ¬ r.user ≠ target := by simp [hu]
    cases hp : parseISO r.date with
    | none => simp [this, hu, hp]
    | some d =>
      by_cases hy : (d.y : ℤ) = year
      · simp [this, hu, hp, hy]
      · simp [this, hu, hp, hy]
  · simp [hu]

/-- The day-report fold computes the spec's income/expense sums over the
date-scoped rows — of ALL users. -/
theorem summaryDayTotals_spec (rows : List Row) (target : PyDate) :
    summaryDayTotals rows target =
      (sumIncome ((rows.filter (fun r => r.date == strDate target)).map
        Row.amount),
       sumExpense ((rows.filter (fun r => r.date == strDate target)).map
        Row.amount)) := by
  have h := foldl_inc_general (fun r => r.date == strDate target)
    (fun (tc : ℤ × ℤ) r =>
      if r.date = strDate target then
        if 0 < r.amount then (tc.1 + r.amount, tc.2)
        else (tc.1, tc.2 + |r.amount|)
      else tc)
    (by
      intro tc r
      by_cases hd : r.date = strDate target
      · simp only [hd, if_pos rfl, beq_self_eq_true, if_true]
        exact dUpsert_head_update tc r.amount
      · have hb : (r.date == strDate target) = false := beq_eq_false_iff_ne.mpr hd
        simp [hd, hb])
    rows (0, 0)
  unfold summaryDayTotals
  rw [h]
  have hc : (fun r => inc r.amount) = (inc ∘ Row.amount) := rfl
  rw [hc, ← List.map_map, mapInc_sum]
  simp [Prod.ext_iff]

/-- The month-report fold computes the spec's income/expense sums over the
month-scoped rows — of ALL users (rows with unparsable dates skipped). -/
theorem summaryMonthTotals_spec (rows : List Row) (y m : ℕ) :
    summaryMonthTotals rows y m =
      (sumIncome ((rows.filter (isoMonthScope y m)).map Row.amount),
       sumExpense ((rows.filter (isoMonthScope y m)).map Row.amount)) := by
  have h := foldl_inc_general (isoMonthScope y m)
    (fun (tc : ℤ × ℤ) r =>
      match parseISO r.date with
      | none => tc
      | some d =>
        if d.y = y ∧ d.m = m then
          if (0 : ℤ) < r.amount then (tc.1 + r.amount, tc.2)
          else (tc.1, tc.2 + |r.amount|)
        else tc)
    (by
      intro tc r
      dsimp only
      unfold isoMonthScope
      cases hp : parseISO r.date with
      | none => simp
      | some d =>
        by_cases hym : d.y = y ∧ d.m = m
        · have hb : (d.y == y && d.m == m) = true := by
            simp [hym.1, hym.2]
          simp only [hb, if_pos hym, if_true]
          exact dUpsert_head_update tc r.amount
        · have hb : (d.y == y && d.m == m) = false := by
            rcases not_and_or.mp hym with h1 | h1 <;> simp [h1]
          simp [hb, hym])
    rows (0, 0)
  unfold summaryMonthTotals
  rw [h]
  have hc : (fun r => inc r.amount) = (inc ∘ Row.amount) := rfl
  rw [hc, ← List.map_map, mapInc_sum]
  simp [Prod.ext_iff]

/-- C6 (counterexample): two users' records on the same day; the day report
returns `(500000, 20000)`, mixing both users — but the claim's user-scoped
totals are `(500000, 0)` for target `alice` and `(0, 20000)` for target
`bob`, so the report matches NO target user's scoped totals (the day and
month reports take no user at all). -/
theorem C6_counterexample :
    summaryDayTotals
      [⟨ofStr "2026-01-05", ofStr "alice", 500000, ofStr "X"⟩,
       ⟨ofStr "2026-01-05", ofStr "bob", -20000, ofStr "Y"⟩] ⟨2026, 1, 5⟩ =
      (500000, 20000) ∧
    sumExpense
      (([⟨ofStr "2026-01-05", ofStr "alice", 500000, ofStr "X"⟩,
         ⟨ofStr "2026-01-05", ofStr "bob", -20000, ofStr "Y"⟩].filter
        (fun r => r.user == ofStr "alice" &&
          r.date == strDate ⟨2026, 1, 5⟩)).map Row.amount) = 0 ∧
    sumIncome
      (([⟨ofStr "2026-01-05", ofStr "alice", 500000, ofStr "X"⟩,
         ⟨ofStr "2026-01-05", ofStr "bob", -20000, ofStr "Y"⟩].filter
        (fun r => r.user == ofStr "bob" &&
          r.date == strDate ⟨2026, 1, 5⟩)).map Row.amount) = 0 ∧
    (20000 : ℤ) ≠ 0 ∧ (500000 : ℤ) ≠ 0 := by
  refine ⟨by decide, by decide, by decide, by decide, by decide⟩

/-- C6 (amended): `income_total` is the sum of the positive in-scope
amounts, `expense_total` the sum of absolute values of the negative
in-scope amounts (zero amounts contribute nothing), and the reply prints
`balance = thu - chi`; but only the YEAR report scopes to the target user —
the day and month reports aggregate the records of ALL users (they have no
user parameter at all). -/
theorem C6_totals_formulas :
    (∀ (rows : List Row) (target : PyDate),
      summaryDayTotals rows target =
        (sumIncome ((rows.filter (fun r => r.date == strDate target)).map
          Row.amount),
         sumExpense ((rows.filter (fun r => r.date == strDate target)).map
          Row.amount))) ∧
    (∀ (rows : List Row) (y m : ℕ),
      summaryMonthTotals rows y m =
        (sumIncome ((rows.filter (isoMonthScope y m)).map Row.amount),
         sumExpense ((rows.filter (isoMonthScope y m)).map Row.amount))) ∧
    (∀ (rows : List Row) (target : List Char) (year : ℤ) (m : ℕ),
      dGet (buildMonthly rows target year) m =
        (sumIncome ((rows.filter (isoYearMonthScope target year m)).map
          Row.amount),
         sumExpense ((rows.filter (isoYearMonthScope target year m)).map
          Row.amount))) := by
  refine ⟨summaryDayTotals_spec, summaryMonthTotals_spec, ?_⟩
  intro rows target year m
  rw [dGet_buildMonthly]
  have hfe : (fun r => scopeMonth target year r == some m) =
      isoYearMonthScope target year m := by
    funext r
    exact scopeMonth_beq target year m r
  have hc : (fun r => inc r.amount) = (inc ∘ Row.amount) := rfl
  rw [hfe, hc, ← List.map_map, mapInc_sum]

/-- The max-scan of Python's `max(key=...)`: the result splits the list
into a strict-smaller prefix and a no-greater suffix — i.e. it is the FIRST
element attaining the maximum, in list order. -/
theorem pyMax_scan_spec (f : ℕ → ℤ) :
    ∀ (xs : List ℕ) (x : ℕ),
      ∃ pre post,
        x :: xs = pre ++
          (xs.foldl (fun cur y => if f cur < f y then y else cur) x) :: post ∧
        (∀ y ∈ pre,
          f y < f (xs.foldl (fun cur y => if f cur < f y then y else cur) x)) ∧
        (∀ y ∈ post,
          f y ≤ f (xs.foldl (fun cur y => if f cur < f y then y else cur) x)) := by
  intro xs
  induction xs with
  | nil =>
    intro x
    exact ⟨[], [], rfl, by simp, by simp⟩
  | cons y ys ih =>
    intro x
    rw [List.foldl_cons]
    by_cases hxy : f x < f y
    · rw [if_pos hxy]
      obtain ⟨pre', post', hdec, hpre, hpost⟩ := ih y
      refine ⟨x :: pre', post', ?_, ?_, hpost⟩
      · rw [List.cons_append, ← hdec]
      · intro z hz
        rcases List.mem_cons.mp hz with rfl | hzp
        · have hy : f y ≤ f (ys.foldl (fun cur y => if f cur < f y then y else cur) y) := by
            have hymem : y ∈ pre' ++
                (ys.foldl (fun cur y => if f cur < f y then y else cur) y) :: post' := by
              rw [← hdec]; exact List.mem_cons_self _ _
            rcases List.mem_append.mp hymem with h1 | h2
            · exact le_of_lt (hpre _ h1)
            · rcases List.mem_cons.mp h2 with h3 | h4
              · exact le_of_eq (congrArg f h3)
              · exact hpost _ h4
          exact lt_of_lt_of_le hxy hy
        · exact hpre _ hzp
    · rw [if_neg hxy]
      obtain ⟨pre', post', hdec, hpre, hpost⟩ := ih x
      cases pre' with
      | nil =>
        rw [List.nil_append] at hdec
        have h1 : x = ys.foldl (fun cur y => if f cur < f y then y else cur) x :=
          (List.cons.injEq _ _ _ _ ▸ hdec).1
        have h2 : ys = post' := (List.cons.injEq _ _ _ _ ▸ hdec).2
        refine ⟨[], y :: ys, by rw [List.nil_append, ← h1], by simp, ?_⟩
        intro z hz
        rw [← h1]
        rcases List.mem_cons.mp hz with rfl | hzs
        · exact not_lt.mp hxy
        · have := hpost z (h2 ▸ hzs)
          rw [← h1] at this
          exact this
      | cons a p =>
        rw [List.cons_append] at hdec
        have h1 : x = a := (List.cons.injEq _ _ _ _ ▸ hdec).1
        have h2 : ys = p ++
            (ys.foldl (fun cur y => if f cur < f y then y else cur) x) :: post' :=
          (List.cons.injEq _ _ _ _ ▸ hdec).2
        refine ⟨x :: y :: p, post', ?_, ?_, hpost⟩
        · rw [List.cons_append, List.cons_append]
          exact congrArg (fun l => x :: y :: l) h2
        · intro z hz
          have hxlt : f x < f (ys.foldl (fun cur y => if f cur < f y then y else cur) x) := by
            have := hpre a (List.mem_cons_self _ _)
            rw [← h1] at this
            exact this
          rcases List.mem_cons.mp hz with rfl | hz1
          · exact hxlt
          · rcases List.mem_cons.mp hz1 with rfl | hz2
            · exact lt_of_le_of_lt (not_lt.mp hxy) hxlt
            · exact hpre z (List.mem_cons_of_mem _ hz2)

/-- Python's `max(l, key=f)` returns the first maximum: everything before it
is strictly smaller, everything after no greater. -/
theorem pyMax_first_max (f : ℕ → ℤ) (l : List ℕ) (x : ℕ)
    (h : pyMax f l = some x) :
    ∃ pre post, l = pre ++ x :: post ∧ (∀ y ∈ pre, f y < f x) ∧
      (∀ y ∈ post, f y ≤ f x) := by
  cases l with
  | nil => exact absurd h (by simp [pyMax])
  | cons a t =>
    unfold pyMax at h
    have hx : t.foldl (fun cur y => if f cur < f y then y else cur) a = x := by
      simpa using h
    obtain ⟨pre, post, hdec, hpre, hpost⟩ := pyMax_scan_spec f t a
    rw [hx] at hdec hpre hpost
    exact ⟨pre, post, hdec, hpre, hpost⟩

/-- `dUpsert` appends a fresh key at the end and keeps existing keys in
place — dict insertion order. -/
theorem dUpsert_keys (k : ℕ) (amt : ℤ) (l : List (ℕ × ℤ × ℤ)) :
    (dUpsert k amt l).map Prod.fst =
      if (l.map Prod.fst).contains k then l.map Prod.fst
      else l.map Prod.fst ++ [k] := by
  induction l with
  | nil => simp [dUpsert]
  | cons p t ih =>
    obtain ⟨k0, v⟩ := p
    unfold dUpsert
    by_cases h0 : k0 = k
    · subst h0
      simp
    · have hb : (k == k0) = false := beq_eq_false_iff_ne.mpr (fun he => h0 he.symm)
      simp only [List.map_cons, List.contains_cons, hb, Bool.false_or,
        if_neg h0, ih]
      by_cases hc : (t.map Prod.fst).contains k = true
      · rw [if_pos hc, if_pos hc]
      · rw [if_neg hc, if_neg hc, List.cons_append]

/-- The keys of the `monthly` dict are the in-scope months in order of
first occurrence in the stored rows. -/
theorem buildMonthly_keys_fold (target : List Char) (year : ℤ) :
    ∀ (rows : List Row) (acc : List (ℕ × ℤ × ℤ)),
      ((rows.foldl (fun acc r =>
        match scopeMonth target year r with
        | none => acc
        | some mo => dUpsert mo r.amount acc) acc).map Prod.fst) =
      (rows.filterMap (scopeMonth target year)).foldl
        (fun ks m => if ks.contains m then ks else ks ++ [m])
        (acc.map Prod.fst) := by
  intro rows
  induction rows with
  | nil => intro acc; simp
  | cons r t ih =>
    intro acc
    rw [List.foldl_cons]
    cases hs : scopeMonth target year r with
    | none => simp [hs, ih]
    | some mo =>
      simp only [hs, List.filterMap_cons, List.foldl_cons]
      rw [ih, dUpsert_keys]

/-- Keys of `buildMonthly`: first-occurrence order of the in-scope months. -/
theorem buildMonthly_keys (rows : List Row) (target : List Char) (year : ℤ) :
    (buildMonthly rows target year).map Prod.fst =
      firstOccur (rows.filterMap (scopeMonth target year)) := by
  unfold buildMonthly firstOccur
  rw [buildMonthly_keys_fold]
  rfl

/-- A key absent from the dict looks up to the default. -/
theorem dGet_not_mem (l : List (ℕ × ℤ × ℤ)) (k : ℕ)
    (h : (l.map Prod.fst).contains k = false) : dGet l k = (0, 0) := by
  induction l with
  | nil => rfl
  | cons p t ih =>
    obtain ⟨k0, v⟩ := p
    simp only [List.map_cons, List.contains_cons, Bool.or_eq_false_iff] at h
    rw [dGet_cons, if_neg (by
      intro he
      subst he
      simpa using h.1)]
    exact ih h.2

/-- The months `range(1, 13)` adds to the dict during the report loop all
carry zero totals, so `months_with_data` filters down to the ORIGINAL keys
with data, in dict insertion order. -/
theorem monthsWithData_eq_keys_filter (monthly : List (ℕ × ℤ × ℤ)) :
    monthsWithData monthly = (monthly.map Prod.fst).filter
      (fun m => decide ((dGet monthly m).1 ≠ 0 ∨ (dGet monthly m).2 ≠ 0)) := by
  unfold monthsWithData keysAfterReport
  rw [List.filter_append]
  have hz : (monthRange.filter
      (fun m => !(monthly.map Prod.fst).contains m)).filter
      (fun m => decide ((dGet monthly m).1 ≠ 0 ∨ (dGet monthly m).2 ≠ 0)) = [] := by
    rw [List.filter_eq_nil_iff]
    intro m hm
    have hc : (monthly.map Prod.fst).contains m = false := by
      have := (List.mem_filter.mp hm).2
      simpa using this
    rw [dGet_not_mem monthly m hc]
    simp
  rw [hz, List.append_nil]

/-- C7 (counterexample): two expense records of the same user and year, one
in December (stored first) and one in March, with EQUAL month expenses (100
each) and equal balances (−100 each).  The report picks month 12 as both
`worst_month` and `best_month` — dict insertion order (first occurrence in
row order), not the claimed lowest-month tie-break, which required 3. -/
theorem C7_counterexample :
    summary_year OWNER_USERNAME (ofStr "u") [ofStr "2026"]
      [⟨ofStr "2026-12-05", ofStr "u", -100, ofStr "A"⟩,
       ⟨ofStr "2026-03-07", ofStr "u", -100, ofStr "B"⟩] =
      .report 2026 (ofStr "u") 0 200 12 12 ∧
    dGet (buildMonthly
      [⟨ofStr "2026-12-05", ofStr "u", -100, ofStr "A"⟩,
       ⟨ofStr "2026-03-07", ofStr "u", -100, ofStr "B"⟩] (ofStr "u") 2026) 12 =
      (0, 100) ∧
    dGet (buildMonthly
      [⟨ofStr "2026-12-05", ofStr "u", -100, ofStr "A"⟩,
       ⟨ofStr "2026-03-07", ofStr "u", -100, ofStr "B"⟩] (ofStr "u") 2026) 3 =
      (0, 100) ∧
    (12 : ℕ) ≠ 3 := by
  refine ⟨by decide, by decide, by decide, by decide⟩

/-- C7 (amended): `worst_month`/`best_month` do maximise expense
resp. balance over the months with data, but ties are broken by the
candidate list's order — which is the order of each month's FIRST in-scope
record in the stored rows (dict insertion order), not by lowest month
number: (i) the candidate months are the in-scope months in first-occurrence
row order (the zero-total months the report loop adds are filtered out
again); (ii) Python's `max(key=...)` returns the first maximum of that
order (strictly-smaller prefix, no-greater suffix). -/
theorem C7_max_and_tiebreak :
    (∀ (rows : List Row) (target : List Char) (year : ℤ),
      monthsWithData (buildMonthly rows target year) =
        (firstOccur (rows.filterMap (scopeMonth target year))).filter
          (fun m => decide ((dGet (buildMonthly rows target year) m).1 ≠ 0 ∨
            (dGet (buildMonthly rows target year) m).2 ≠ 0))) ∧
    (∀ (f : ℕ → ℤ) (l : List ℕ) (x : ℕ), pyMax f l = some x →
      ∃ pre post, l = pre ++ x :: post ∧ (∀ y ∈ pre, f y < f x) ∧
        (∀ y ∈ post, f y ≤ f x)) := by
  constructor
  · intro rows target year
    rw [monthsWithData_eq_keys_filter, buildMonthly_keys]
  · exact pyMax_first_max

/-- C7 witness: the max-scan applied to the tied candidate list `[12, 3]`
(both keys equal) returns 12, the first in insertion order. -/
theorem C7_max_and_tiebreak_witness :
    ∃ pre post, ([12, 3] : List ℕ) = pre ++ 12 :: post ∧
      (∀ y ∈ pre, (fun _ => (100 : ℤ)) y < (fun _ => (100 : ℤ)) 12) ∧
      (∀ y ∈ post, (fun _ => (100 : ℤ)) y ≤ (fun _ => (100 : ℤ)) 12) :=
  C7_max_and_tiebreak.2 (fun _ => (100 : ℤ)) [12, 3] 12 (by decide)

/-!
Character-class facts used by the symbolic matcher run.
-/

theorem digit_isWord (c : Char) (h : isDigitChar c = true) :
    isWordChar c = true := by
  unfold isDigitChar at h
  unfold isWordChar
  simp only [decide_eq_true_eq] at *
  exact Or.inr (Or.inr (Or.inl h))

theorem digit_not_space (c : Char) (h : isDigitChar c = true) :
    isSpaceChar c = false := by
  unfold isDigitChar at h
  unfold isSpaceChar
  simp only [decide_eq_true_eq] at h
  simp only [decide_eq_false_iff_not]
  rintro (rfl | rfl | rfl | rfl | rfl | rfl) <;> exact absurd h.1 (by decide)

theorem digit_upper (c : Char) (h : isDigitChar c = true) : pyUpper c = c := by
  unfold isDigitChar at h
  simp only [decide_eq_true_eq] at h
  unfold pyUpper
  rw [if_neg]
  rintro ⟨h1, -⟩
  exact absurd (le_trans h1 h.2) (by decide)

theorem digit_ne_chars (c : Char) (h : isDigitChar c = true) :
    c ≠ ',' ∧ c ≠ '+' ∧ c ≠ '-' ∧ c ≠ '.' := by
  unfold isDigitChar at h
  simp only [decide_eq_true_eq] at h
  refine ⟨?_, ?_, ?_, ?_⟩ <;> rintro rfl <;> exact absurd h.1 (by decide)

theorem space_facts (c : Char) (h : isSpaceChar c = true) :
    isWordChar c = false ∧ pyUpper c = c ∧ c ≠ ',' ∧ isDigitChar c = false ∧
    c ≠ '+' ∧ c ≠ '-' := by
  unfold isSpaceChar at h
  simp only [decide_eq_true_eq] at h
  rcases h with rfl | rfl | rfl | rfl | rfl | rfl <;>
    exact ⟨by decide, by decide, by decide, by decide, by decide, by decide⟩

theorem takeWhile_run (p : Char → Bool) :
    ∀ (d rest : List Char), (∀ c ∈ d, p c = true) → headNot p rest →
      (d ++ rest).takeWhile p = d ∧ (d ++ rest).dropWhile p = rest := by
  intro d
  induction d with
  | nil =>
    intro rest _ hr
    cases rest with
    | nil => exact ⟨rfl, rfl⟩
    | cons c t =>
      unfold headNot at hr
      simp [List.takeWhile_cons, List.dropWhile_cons, hr]
  | cons c d' ih =>
    intro rest hd hr
    have hc : p c = true := hd c (List.mem_cons_self _ _)
    have := ih rest (fun x hx => hd x (List.mem_cons_of_mem _ hx)) hr
    simp [List.takeWhile_cons, List.dropWhile_cons, hc, this.1, this.2]

/-!
Symbolic run of the `_AMOUNT_RE` search over a token.
-/
/-- `\b` fails wherever neither side is a word character, so the scan walks
straight through spaces and a leading sign. -/
theorem matchCore_none_of_nonword_head (prev : Option Char) (c : Char)
    (rest : List Char)
    (hprev : prev = none ∨ ∃ p, prev = some p ∧ isWordChar p = false)
    (hc : isWordChar c = false) :
    matchCore prev (c :: rest) = none := by
  unfold matchCore
  rw [if_neg]
  intro hb
  rcases hprev with rfl | ⟨p, rfl, hp⟩
  · have : atBoundary none (c :: rest) = isWordChar c := rfl
    rw [this, hc] at hb
    exact absurd hb (by simp)
  · have : atBoundary (some p) (c :: rest) = (isWordChar p != isWordChar c) := rfl
    rw [this, hp, hc] at hb
    exact absurd hb (by simp)

/-- The search scans through a non-word prefix, carrying a non-word
previous character. -/
theorem searchAux_skip_nonword (l2 : List Char) :
    ∀ (ws pre : List Char) (prev : Option Char),
      (∀ c ∈ ws, isWordChar c = false) →
      (prev = none ∨ ∃ p, prev = some p ∧ isWordChar p = false) →
      ∃ prev', (prev' = none ∨ ∃ p, prev' = some p ∧ isWordChar p = false) ∧
        searchAux prev (ws ++ l2) pre = searchAux prev' l2 (pre ++ ws) := by
  intro ws
  induction ws with
  | nil => exact fun pre prev _ hprev => ⟨prev, hprev, by simp⟩
  | cons w t ih =>
    intro pre prev hws hprev
    have hw : isWordChar w = false := hws w (List.mem_cons_self _ _)
    rw [List.cons_append]
    have hstep : searchAux prev (w :: (t ++ l2)) pre =
        searchAux (some w) (t ++ l2) (pre ++ [w]) := by
      rw [searchAux, matchCore_none_of_nonword_head prev w _ hprev hw]
    obtain ⟨prev', hp', heq⟩ := ih (pre ++ [w]) (some w)
      (fun c hc => hws c (List.mem_cons_of_mem _ hc)) (Or.inr ⟨w, rfl, hw⟩)
    refine ⟨prev', hp', ?_⟩
    rw [hstep, heq]
    simp only [List.append_assoc, List.singleton_append]

/-- The trailing `\b` holds at end-of-input after a digit run. -/
theorem atBoundary_digits_end (pre l : List Char) (hne : l ≠ [])
    (hl : ∀ c ∈ l, isDigitChar c = true) :
    atBoundary (pre ++ l).getLast? [] = true := by
  rw [List.getLast?_append_of_ne_nil pre hne, List.getLast?_eq_getLast l hne]
  unfold atBoundary
  exact digit_isWord _ (hl _ (List.getLast_mem hne))

/-- The unit step with no unit letter left: the final `\b` sits after the
last digit. -/
theorem matchUnit_token_none (d f' : List Char)
    (hlast : atBoundary (d ++ f').getLast? [] = true) :
    matchUnit none [] d f' [] [] =
      some ⟨d ++ f', [], none, d ++ f', none⟩ := by
  unfold matchUnit finishM
  rw [if_pos]
  · simp [optChar]
  · have h0 : optChar (none : Option Char) ++ [] ++ d ++ f' ++ [] ++
        optChar (none : Option Char) = d ++ f' := by simp [optChar]
    rw [h0]
    exact hlast

/-- The unit step consuming a concrete unit letter; the final `\b` sits
after it (word character, end of input). -/
theorem matchUnit_token_unit (d f' : List Char) (uc : Char)
    (hw : isWordChar uc = true)
    (hkm : uc = 'K' ∨ uc = 'M' ∨ uc = 'k' ∨ uc = 'm') :
    matchUnit none [] d f' [] [uc] =
      some ⟨d ++ f' ++ [uc], [], none, d ++ f', some uc⟩ := by
  have hfin : finishM none [] d f' [] (some uc) [] =
      some ⟨d ++ f' ++ [uc], [], none, d ++ f', some uc⟩ := by
    unfold finishM
    rw [if_pos]
    · simp [optChar]
    · have h0 : optChar (none : Option Char) ++ [] ++ d ++ f' ++ [] ++
          optChar (some uc) = (d ++ f') ++ [uc] := by simp [optChar]
      rw [h0, List.getLast?_concat]
      exact hw
  unfold matchUnit
  dsimp only
  rw [if_pos hkm, hfin]
  rfl

/-- Evaluation of the unit step and the final `\b` over a token tail. -/
theorem matchUnit_token (d f' : List Char) (u : Option Char)
    (hu : u = none ∨ u = some 'K' ∨ u = some 'M' ∨ u = some 'k' ∨ u = some 'm')
    (hne : d ≠ []) (hd : ∀ c ∈ d, isDigitChar c = true)
    (hf : f' = [] ∨ ∃ l, f' = '.' :: l ∧ l ≠ [] ∧ ∀ c ∈ l, isDigitChar c = true) :
    matchUnit none [] d f' [] (optChar u) =
      some ⟨d ++ f' ++ optChar u, [], none, d ++ f', u⟩ := by
  have hlast : atBoundary (d ++ f').getLast? [] = true := by
    rcases hf with rfl | ⟨l, rfl, hlne, hl⟩
    · rw [List.append_nil]
      have h := atBoundary_digits_end [] d hne hd
      rw [List.nil_append] at h
      exact h
    · have h0 : d ++ '.' :: l = (d ++ ['.']) ++ l := by simp
      rw [h0]
      exact atBoundary_digits_end (d ++ ['.']) l hlne hl
  rcases hu with rfl | rfl | rfl | rfl | rfl
  · rw [show optChar (none : Option Char) = [] from rfl, List.append_nil]
    exact matchUnit_token_none d f' hlast
  · rw [show optChar (some 'K') = ['K'] from rfl]
    exact matchUnit_token_unit d f' 'K' (by decide) (by decide)
  · rw [show optChar (some 'M') = ['M'] from rfl]
    exact matchUnit_token_unit d f' 'M' (by decide) (by decide)
  · rw [show optChar (some 'k') = ['k'] from rfl]
    exact matchUnit_token_unit d f' 'k' (by decide) (by decide)
  · rw [show optChar (some 'm') = ['m'] from rfl]
    exact matchUnit_token_unit d f' 'm' (by decide) (by decide)

/-- Evaluation of the second `\s*` (empty here) and the unit step. -/
theorem trySp2_token (d f' : List Char) (u : Option Char)
    (hu : u = none ∨ u = some 'K' ∨ u = some 'M' ∨ u = some 'k' ∨ u = some 'm')
    (hne : d ≠ []) (hd : ∀ c ∈ d, isDigitChar c = true)
    (hf : f' = [] ∨ ∃ l, f' = '.' :: l ∧ l ≠ [] ∧ ∀ c ∈ l, isDigitChar c = true) :
    trySp2 none [] d f' [] (optChar u) =
      some ⟨d ++ f' ++ optChar u, [], none, d ++ f', u⟩ := by
  unfold trySp2
  rw [matchUnit_token d f' u hu hne hd hf]

/-- A list whose head fails `p` has an empty `takeWhile`. -/
theorem takeWhile_nil_of_headNot (p : Char → Bool) (l : List Char)
    (h : headNot p l) : l.takeWhile p = [] ∧ l.dropWhile p = l := by
  cases l with
  | nil => exact ⟨rfl, rfl⟩
  | cons c t =>
    unfold headNot at h
    simp [List.takeWhile_cons, List.dropWhile_cons, h]

/-- `optChar u` for a unit starts with no digit and no space. -/
theorem optChar_unit_heads (u : Option Char)
    (hu : u = none ∨ u = some 'K' ∨ u = some 'M' ∨ u = some 'k' ∨ u = some 'm') :
    headNot isDigitChar (optChar u) ∧ headNot isSpaceChar (optChar u) := by
  rcases hu with rfl | rfl | rfl | rfl | rfl
  · exact ⟨trivial, trivial⟩
  · exact ⟨show isDigitChar 'K' = false by decide,
      show isSpaceChar 'K' = false by decide⟩
  · exact ⟨show isDigitChar 'M' = false by decide,
      show isSpaceChar 'M' = false by decide⟩
  · exact ⟨show isDigitChar 'k' = false by decide,
      show isSpaceChar 'k' = false by decide⟩
  · exact ⟨show isDigitChar 'm' = false by decide,
      show isSpaceChar 'm' = false by decide⟩

/-- Evaluation of the fractional step over a token tail. -/
theorem matchFrac_token (d : List Char) (fs : Option (List Char))
    (u : Option Char)
    (hu : u = none ∨ u = some 'K' ∨ u = some 'M' ∨ u = some 'k' ∨ u = some 'm')
    (hne : d ≠ []) (hd : ∀ c ∈ d, isDigitChar c = true)
    (hfs : ∀ l, fs = some l → l ≠ [] ∧ ∀ c ∈ l, isDigitChar c = true) :
    matchFrac none [] d (fracRender fs ++ optChar u) =
      some ⟨d ++ fracRender fs ++ optChar u, [], none, d ++ fracRender fs, u⟩ := by
  have hsp := takeWhile_nil_of_headNot isSpaceChar (optChar u)
    (optChar_unit_heads u hu).2
  cases fs with
  | none =>
    have hstep : matchFrac none [] d (fracRender none ++ optChar u) =
        trySp2 none [] d [] ((optChar u).takeWhile isSpaceChar).reverse
          ((optChar u).dropWhile isSpaceChar) := by
      rcases hu with rfl | rfl | rfl | rfl | rfl <;> rfl
    rw [hstep, hsp.1, hsp.2]
    rw [show List.reverse ([] : List Char) = [] from rfl]
    rw [trySp2_token d [] u hu hne hd (Or.inl rfl)]
    rfl
  | some l =>
    obtain ⟨hlne, hl⟩ := hfs l rfl
    have htw := takeWhile_run isDigitChar l (optChar u) hl
      (optChar_unit_heads u hu).1
    rw [show fracRender (some l) ++ optChar u = '.' :: (l ++ optChar u) from rfl]
    unfold matchFrac
    dsimp only
    rw [if_pos rfl, htw.1, htw.2, if_neg hlne, hsp.1, hsp.2]
    rw [show List.reverse ([] : List Char) = [] from rfl]
    rw [trySp2_token d ('.' :: l) u hu hne hd (Or.inr ⟨l, rfl, hlne, hl⟩)]
    rfl

/-- Evaluation from just after the (absent) sign, over the full token. -/
theorem matchAfterSign_token (d : List Char) (fs : Option (List Char))
    (u : Option Char)
    (hu : u = none ∨ u = some 'K' ∨ u = some 'M' ∨ u = some 'k' ∨ u = some 'm')
    (hne : d ≠ []) (hd : ∀ c ∈ d, isDigitChar c = true)
    (hfs : ∀ l, fs = some l → l ≠ [] ∧ ∀ c ∈ l, isDigitChar c = true) :
    matchAfterSign none (d ++ (fracRender fs ++ optChar u)) =
      some ⟨d ++ fracRender fs ++ optChar u, [], none, d ++ fracRender fs, u⟩ := by
  have hrest : headNot isDigitChar (fracRender fs ++ optChar u) := by
    cases fs with
    | none => exact (optChar_unit_heads u hu).1
    | some l => exact (by decide : isDigitChar '.' = false)
  have hsp1 : headNot isSpaceChar (d ++ (fracRender fs ++ optChar u)) := by
    cases d with
    | nil => exact absurd rfl hne
    | cons c0 d' =>
      exact digit_not_space c0 (hd c0 (List.mem_cons_self _ _))
  have h1 := takeWhile_nil_of_headNot isSpaceChar _ hsp1
  have h2 := takeWhile_run isDigitChar d (fracRender fs ++ optChar u) hd hrest
  unfold matchAfterSign
  dsimp only
  rw [h1.1, h1.2, h2.1, h2.2, if_neg hne]
  exact matchFrac_token d fs u hu hne hd hfs

/-- A full match of `_AMOUNT_RE` at the head of a (sign-stripped) token:
group 2 is the digits, group 3 the unit, the sign group empty, the whole
token consumed. -/
theorem matchCore_token (prev : Option Char) (d : List Char)
    (fs : Option (List Char)) (u : Option Char)
    (hprev : prev = none ∨ ∃ p, prev = some p ∧ isWordChar p = false)
    (hu : u = none ∨ u = some 'K' ∨ u = some 'M' ∨ u = some 'k' ∨ u = some 'm')
    (hne : d ≠ []) (hd : ∀ c ∈ d, isDigitChar c = true)
    (hfs : ∀ l, fs = some l → l ≠ [] ∧ ∀ c ∈ l, isDigitChar c = true) :
    matchCore prev (d ++ (fracRender fs ++ optChar u)) =
      some ⟨d ++ fracRender fs ++ optChar u, [], none, d ++ fracRender fs, u⟩ := by
  cases d with
  | nil => exact absurd rfl hne
  | cons c0 d' =>
    have hc0 : isDigitChar c0 = true := hd c0 (List.mem_cons_self _ _)
    unfold matchCore
    rw [if_pos]
    · rw [List.cons_append]
      unfold matchSign
      dsimp only
      rw [if_neg]
      · rw [← List.cons_append]
        exact matchAfterSign_token (c0 :: d') fs u hu hne hd hfs
      · rintro (rfl | rfl) <;> exact absurd hc0 (by decide)
    · rw [List.cons_append]
      rcases hprev with rfl | ⟨p, rfl, hp⟩
      · have : atBoundary none (c0 :: (d' ++ (fracRender fs ++ optChar u))) =
            isWordChar c0 := rfl
        rw [this]
        exact digit_isWord c0 hc0
      · have : atBoundary (some p)
            (c0 :: (d' ++ (fracRender fs ++ optChar u))) =
            (isWordChar p != isWordChar c0) := rfl
        rw [this, hp, digit_isWord c0 hc0]
        rfl

/-- `map` fixes a list all of whose elements are fixed. -/
theorem map_fixed (f : Char → Char) :
    ∀ l : List Char, (∀ c ∈ l, f c = c) → l.map f = l := by
  intro l
  induction l with
  | nil => exact fun _ => rfl
  | cons c t ih =>
    intro h
    rw [List.map_cons, h c (List.mem_cons_self _ _),
      ih (fun x hx => h x (List.mem_cons_of_mem _ hx))]

/-- `str.upper` followed by the comma filter leaves a whitespace-prefixed
amount token intact, except that the unit letter is uppercased. -/
theorem token_clean (ws : List Char) (t : AmtToken)
    (hws : ∀ c ∈ ws, isSpaceChar c = true) (hwf : t.wf) :
    ((ws ++ t.render).map pyUpper).filter (fun c => c ≠ ',') =
      ws ++ (optChar t.sign ++ t.intPart ++ fracRender t.fracPart ++
        optChar (t.unit.map pyUpper)) := by
  obtain ⟨hsign, hne, hd, hfs, hu⟩ := hwf
  have hmap : (ws ++ t.render).map pyUpper =
      ws ++ (optChar t.sign ++ t.intPart ++ fracRender t.fracPart ++
        optChar (t.unit.map pyUpper)) := by
    unfold AmtToken.render
    rw [List.map_append, List.map_append, List.map_append, List.map_append]
    rw [map_fixed pyUpper ws (fun c hc => (space_facts c (hws c hc)).2.1)]
    rw [show (optChar t.sign).map pyUpper = optChar t.sign by
      rcases hsign with he | he | he <;> rw [he] <;> decide]
    rw [map_fixed pyUpper t.intPart (fun c hc => digit_upper c (hd c hc))]
    rw [show (fracRender t.fracPart).map pyUpper = fracRender t.fracPart by
      cases h : t.fracPart with
      | none => rfl
      | some l =>
        obtain ⟨-, hl⟩ := hfs l h
        unfold fracRender
        rw [List.map_cons, show pyUpper '.' = '.' from by decide,
          map_fixed pyUpper l (fun c hc => digit_upper c (hl c hc))]]
    rw [show (optChar t.unit).map pyUpper = optChar (t.unit.map pyUpper) by
      cases t.unit <;> rfl]
  rw [hmap]
  refine List.filter_eq_self.mpr ?_
  intro c hc
  simp only [decide_eq_true_eq]
  rcases List.mem_append.mp hc with h | h
  · exact (space_facts c (hws c h)).2.2.1
  rcases List.mem_append.mp h with h | h
  rcases List.mem_append.mp h with h | h
  rcases List.mem_append.mp h with h | h
  · rcases hsign with he | he | he <;> rw [he] at h
    · cases h
    · rw [List.mem_singleton.mp h]; decide
    · rw [List.mem_singleton.mp h]; decide
  · exact (digit_ne_chars c (hd c h)).1
  · cases hf : t.fracPart with
    | none => rw [hf] at h; cases h
    | some l =>
      obtain ⟨-, hl⟩ := hfs l hf
      rw [hf] at h
      rcases List.mem_cons.mp h with rfl | h
      · decide
      · exact (digit_ne_chars c (hl c h)).1
  · rcases hu with he | he | he | he | he <;> rw [he] at h
    · cases h
    all_goals rw [List.mem_singleton.mp h]; decide

/-- `_AMOUNT_RE.search` on a cleaned, whitespace-prefixed token matches the
numeric body: the sign (if any) is left in the prefix because `\b` fails
before it, the digits and unit are captured, nothing remains. -/
theorem amountSearch_token (ws : List Char) (sign : Option Char)
    (d : List Char) (fs : Option (List Char)) (u : Option Char)
    (hws : ∀ c ∈ ws, isSpaceChar c = true)
    (hsign : sign = none ∨ sign = some '+' ∨ sign = some '-')
    (hu : u = none ∨ u = some 'K' ∨ u = some 'M' ∨ u = some 'k' ∨ u = some 'm')
    (hne : d ≠ []) (hd : ∀ c ∈ d, isDigitChar c = true)
    (hfs : ∀ l, fs = some l → l ≠ [] ∧ ∀ c ∈ l, isDigitChar c = true) :
    amountSearch (ws ++ (optChar sign ++ d ++ fracRender fs ++ optChar u)) =
      some ⟨ws ++ optChar sign,
        ⟨d ++ fracRender fs ++ optChar u, [], none, d ++ fracRender fs, u⟩⟩ := by
  unfold amountSearch
  have hassoc : ws ++ (optChar sign ++ d ++ fracRender fs ++ optChar u) =
      (ws ++ optChar sign) ++ (d ++ (fracRender fs ++ optChar u)) := by
    simp [List.append_assoc]
  rw [hassoc]
  have hnw : ∀ c ∈ ws ++ optChar sign, isWordChar c = false := by
    intro c hc
    rcases List.mem_append.mp hc with h | h
    · exact (space_facts c (hws c h)).1
    · rcases hsign with rfl | rfl | rfl
      · cases h
      · rw [List.mem_singleton.mp h]; decide
      · rw [List.mem_singleton.mp h]; decide
  obtain ⟨prev', hprev', hskip⟩ := searchAux_skip_nonword
    (d ++ (fracRender fs ++ optChar u)) (ws ++ optChar sign) [] none hnw
    (Or.inl rfl)
  rw [hskip, List.nil_append]
  cases d with
  | nil => exact absurd rfl hne
  | cons c0 d' =>
    have hmc := matchCore_token prev' (c0 :: d') fs u hprev' hu hne hd hfs
    rw [List.cons_append] at hmc
    rw [List.cons_append, searchAux, hmc]

/-- C5 (counterexample): the spec's magnitude promise fails on this code in
two ways.  First, the magnitude is not independent of trailing category text:
the regex's `\s*([KM]?)` absorbs a following category word's `K`, so
`"5 K"` — the token `5` followed by the category `K` — yields 5000, not 5.
Second, the decimal value is not multiplied and truncated exactly: the number
goes through binary64 `float`, so `"1.001K"` yields `int(1.001*1000)` = 1000,
although the exact decimal value of the token is 1001/1000 and
`1001 * 1000 / 1000` truncates to 1001. -/
theorem C5_counterexample :
    (parse_amount_with_sign (ofStr "5 K")).1 = 5000 ∧ (5000 : ℕ) ≠ 5 * 1 ∧
    (parse_amount_with_sign (ofStr "1.001K")).1 = 1000 ∧
    decimalOf (ofStr "1.001") = (1001, 1000) ∧
    1001 * 1000 / 1000 = (1001 : ℕ) ∧ (1000 : ℕ) ≠ 1001 := by
  decide

/-- C5: for every well-formed amount token (optional sign, nonempty digit
run, optional nonempty fraction, optional unit letter K/M/k/m) preceded by
any run of whitespace, `_parse_amount_with_sign` returns exactly the token's
binary64 magnitude: `float(digits[.digits])`, scaled by 1000 (K) or 1000000
(M) in binary64, truncated toward zero — not the exact decimal product, and
only when the token is followed by nothing that the regex could absorb. -/
theorem C5_token_magnitude (ws : List Char) (t : AmtToken)
    (hws : ∀ c ∈ ws, isSpaceChar c = true) (hwf : t.wf) :
    (parse_amount_with_sign (ws ++ t.render)).1 = t.pyMagnitude := by
  obtain ⟨hsign, hne, hd, hfs, hu⟩ := hwf
  unfold parse_amount_with_sign
  dsimp only
  rw [token_clean ws t hws ⟨hsign, hne, hd, hfs, hu⟩]
  have hu' : t.unit.map pyUpper = none ∨ t.unit.map pyUpper = some 'K' ∨
      t.unit.map pyUpper = some 'M' ∨ t.unit.map pyUpper = some 'k' ∨
      t.unit.map pyUpper = some 'm' := by
    rcases hu with he | he | he | he | he <;> rw [he]
    · exact Or.inl rfl
    · exact Or.inr (Or.inl (by decide))
    · exact Or.inr (Or.inr (Or.inl (by decide)))
    · exact Or.inr (Or.inl (by decide))
    · exact Or.inr (Or.inr (Or.inl (by decide)))
  rw [amountSearch_token ws t.sign t.intPart t.fracPart (t.unit.map pyUpper)
    hws hsign hu' hne hd hfs]
  unfold AmtToken.pyMagnitude
  dsimp only

/-- The C5 theorem at the concrete token `1.5M` preceded by one space:
`_parse_amount_with_sign(" 1.5M")` equals the token's binary64 magnitude,
which is 1500000. -/
theorem C5_token_magnitude_witness :
    (parse_amount_with_sign ((ofStr " ") ++
        (AmtToken.mk none (ofStr "1") (some (ofStr "5")) (some 'M')).render)).1 =
      (AmtToken.mk none (ofStr "1") (some (ofStr "5")) (some 'M')).pyMagnitude ∧
    (AmtToken.mk none (ofStr "1") (some (ofStr "5")) (some 'M')).pyMagnitude =
      1500000 :=
  ⟨C5_token_magnitude (ofStr " ")
      (AmtToken.mk none (ofStr "1") (some (ofStr "5")) (some 'M'))
      (by decide)
      ⟨Or.inl rfl, by decide, by decide,
        fun l hl => by cases hl; exact ⟨by decide, by decide⟩,
        Or.inr (Or.inr (Or.inl rfl))⟩,
    by decide⟩

end FinanceBot
